import Mathlib

/-!
Verification of the incremental TypeScript rebuild orchestrator found in
src/lib/broccoli/broccoli-typescript.js: per-file version registry,
root-file-set maintenance, full-build vs incremental-emit policy,
stale-output removal, and the failure/recovery flags.

Modelling choices (shallow embedding of the JavaScript source):
- the TypeScript language service is an external collaborator; it is
  modelled as a record of oracle responses (`TSService`);
- the filesystem below the cache directory is a partial map from paths
  to file contents; `fs.writeFileSync` updates it, `fs.unlinkSync`
  removes a binding or fails (ENOENT) when the binding is missing;
  `fse.mkdirsSync` has no observable effect in this model;
- a thrown JavaScript exception is the `Option RebuildError` component
  of a result pair; the `CompilerState` component is kept even when an
  error is present, because mutations of `this` made before a throw
  survive the throw;
- calls into the language service and diagnostic logging are recorded
  in an event trace so that ordering claims can be stated;
- `console.log` of formatted diagnostic text is modelled as appending
  the diagnostic itself to the trace.
-/

namespace BroccoliTS

/-- Registry entry for one source path.  The JS object `this.fileRegistry`
maps a path to nothing (never seen), to `{version: n}` (live), or to
`null` (tombstone written by the removal branch).  Both `absent` and
`tombstone` are falsy on lookup in the JS code. -/
inductive RegEntry where
  | absent
  | live (version : Nat)
  | tombstone
deriving DecidableEq

/-- True exactly on a live (non-tombstoned, present) registry entry. -/
def isLiveEntry : RegEntry → Bool
  | RegEntry.live _ => true
  | _ => false

/-- The file registry, keyed by project-relative source path. -/
abbrev FileRegistry := String → RegEntry

/-- The cache-directory filesystem: present files mapped to contents. -/
abbrev FileSys := String → Option String

/-- Pointwise update of a map keyed by strings. -/
def setFn {β : Type} (f : String → β) (p : String) (v : β) : String → β :=
  fun q => if q = p then v else f q

/-- The position data the source reads off `diagnostic.file`. -/
structure DiagnosticFile where
  fileName : String
  line : Nat
  character : Nat
deriving DecidableEq

/-- One diagnostic returned by the language service.  `file` is optional,
as in the TypeScript API. -/
structure Diagnostic where
  file : Option DiagnosticFile
  messageText : String
deriving DecidableEq

/-- One output artifact produced by emission (`{name, text}` in the JS). -/
structure OutputFile where
  name : String
  text : String
deriving DecidableEq

/-- Result of `tsService.getEmitOutput(path)` for one path. -/
structure EmitOutput where
  emitSkipped : Bool
  outputFiles : List OutputFile
deriving DecidableEq

/-- Result of the whole-program `program.emit(...)` call performed by
`doFullBuild`: the files its write callback receives, the emit result
flag and diagnostics, and the pre-emit diagnostics of the program. -/
structure FullBuildResult where
  emitSkipped : Bool
  writtenFiles : List OutputFile
  preEmitDiagnostics : List Diagnostic
  emitDiagnostics : List Diagnostic
deriving DecidableEq

/-- Oracle for the external language-analysis service during one cycle. -/
structure TSService where
  getEmitOutput : String → EmitOutput
  getCompilerOptionsDiagnostics : List Diagnostic
  getSyntacticDiagnostics : String → List Diagnostic
  getSemanticDiagnostics : String → List Diagnostic
  programEmit : FullBuildResult

/-- Observable interactions with the language service and the log. -/
inductive BuildEvent where
  | emitRequest (path : String)
  | fullBuild
  | logDiag (d : Diagnostic)
deriving DecidableEq

/-- Errors that abort a cycle: a thrown `new Error(...)` or a thrown
filesystem error (`fs.unlinkSync` on a missing file). -/
inductive RebuildError where
  | jsError (message : String)
  | fsError (message : String)
deriving DecidableEq

/-- The per-cycle diff supplied by the host pipeline. -/
structure TreeDiff where
  changedPaths : List String
  removedPaths : List String
deriving DecidableEq

/-- The mutable state of one `DiffingTSCompiler` instance, plus the
cache filesystem and the event trace. -/
structure CompilerState where
  fileRegistry : FileRegistry
  rootFilePaths : List String
  firstRun : Bool
  previousRunFailed : Bool
  cacheFs : FileSys
  trace : List BuildEvent

/-- Constructor state: `fileRegistry = Object.create(null)`,
`firstRun = true`, `previousRunFailed = false`,
`rootFilePaths = options.rootFilePaths ? options.rootFilePaths.splice(0) : []`.
The cache directory starts empty: it is a fresh per-process directory
and nothing is persisted across process restarts. -/
def initialState (rootFilePaths : List String) : CompilerState :=
  { fileRegistry := fun _ => RegEntry.absent
    rootFilePaths := rootFilePaths
    firstRun := true
    previousRunFailed := false
    cacheFs := fun _ => none
    trace := [] }

/-- `CustomLanguageServiceHost.prototype.getScriptVersion`:
`this.fileRegistry[fileName] && this.fileRegistry[fileName].version.toString()`.
Both the absent case (undefined) and the tombstone case (null) yield a
non-version falsy value, modelled as `none`. -/
def getScriptVersion (fileRegistry : FileRegistry) (fileName : String) : Option String :=
  match fileRegistry fileName with
  | RegEntry.live v => some (toString v)
  | _ => none

/-- Last `n` characters of a string (empty-safe). -/
def strTakeRight (p : String) (n : Nat) : String :=
  ⟨p.data.drop (p.data.length - n)⟩

/-- Drop the last `n` characters of a string (empty-safe). -/
def strDropRight (p : String) (n : Nat) : String :=
  ⟨p.data.take (p.data.length - n)⟩

/-- `tsFilePath.replace(/\.ts$/, repl)`: the regex matches exactly when
the path ends in the three characters `.ts`. -/
def jsReplaceDotTs (p repl : String) : String :=
  if strTakeRight p 3 = ".ts" then strDropRight p 3 ++ repl else p

/-- `tsFilePath.replace(/.ts$/, repl)` (the source-map line does not
escape the dot): the regex matches exactly when the path ends in `ts`
preceded by at least one arbitrary character, and the match is three
characters long. -/
def jsReplaceAnyTs (p repl : String) : String :=
  if strTakeRight p 2 = "ts" ∧ 3 ≤ p.data.length then strDropRight p 3 ++ repl else p

/-- `path.join(this.cachePath, tsFilePath.replace(/\.ts$/, '.js'))`. -/
def absoluteJsFilePath (cachePath tsFilePath : String) : String :=
  cachePath ++ "/" ++ jsReplaceDotTs tsFilePath ".js"

/-- `path.join(this.cachePath, tsFilePath.replace(/.ts$/, '.js.map'))`. -/
def absoluteMapFilePath (cachePath tsFilePath : String) : String :=
  cachePath ++ "/" ++ jsReplaceAnyTs tsFilePath ".js.map"

/-- `path.join(this.cachePath, tsFilePath.replace(/\.ts$/, '.d.ts'))`. -/
def absoluteDtsFilePath (cachePath tsFilePath : String) : String :=
  cachePath ++ "/" ++ jsReplaceDotTs tsFilePath ".d.ts"

/-- `fs.unlinkSync`: removes the binding, or throws ENOENT when the file
is missing. -/
def unlinkSync (fsys : FileSys) (p : String) : FileSys × Option RebuildError :=
  match fsys p with
  | some _ => (setFn fsys p none, none)
  | none => (fsys, some (RebuildError.fsError ("ENOENT: no such file " ++ p)))

/-- `DiffingTSCompiler.prototype.removeOutputFor`: check the generated
js artifact with `fs.existsSync`; when present, unlink the js, map and
d.ts artifacts in that order; when absent, do nothing. -/
def removeOutputFor (cachePath tsFilePath : String) (fsys : FileSys) : FileSys × Option RebuildError :=
  let absoluteJs := absoluteJsFilePath cachePath tsFilePath
  let absoluteMap := absoluteMapFilePath cachePath tsFilePath
  let absoluteDts := absoluteDtsFilePath cachePath tsFilePath
  if (fsys absoluteJs).isSome then
    let r1 := unlinkSync fsys absoluteJs
    match r1.2 with
    | some e => (r1.1, some e)
    | none =>
      let r2 := unlinkSync r1.1 absoluteMap
      match r2.2 with
      | some e => (r2.1, some e)
      | none => unlinkSync r2.1 absoluteDts
  else (fsys, none)

/-- `Array.prototype.indexOf`: first index of `p`, or `-1`. -/
def jsIndexOf : List String → String → Int
  | [], _ => -1
  | x :: xs, p =>
    if x = p then 0
    else
      let r := jsIndexOf xs p
      if r = -1 then -1 else r + 1

/-- `Array.prototype.splice(i, 1)`: the start index is clamped to
`max(length + i, 0)` for negative `i` and to `min(i, length)` otherwise,
and then one element (if any) is removed at that index. -/
def jsSpliceRemoveAt (l : List String) (i : Int) : List String :=
  let len : Int := l.length
  let start := if i < 0 then max (len + i) 0 else min i len
  l.eraseIdx start.toNat

/-- The body of the `treeDiff.changedPaths.forEach` loop in `rebuild`:
create a version-0 record and push the path onto `rootFilePaths` when
the registry holds no live record (absent or tombstoned, both falsy),
otherwise increment the live version. -/
def markChanged (s : CompilerState) (tsFilePath : String) : CompilerState :=
  match s.fileRegistry tsFilePath with
  | RegEntry.live v =>
    { s with fileRegistry := setFn s.fileRegistry tsFilePath (RegEntry.live (v + 1)) }
  | _ =>
    { s with
      fileRegistry := setFn s.fileRegistry tsFilePath (RegEntry.live 0)
      rootFilePaths := s.rootFilePaths ++ [tsFilePath] }

/-- The whole `changedPaths.forEach` loop (`pathsToEmit` collects every
changed path, i.e. it equals `changedPaths` itself). -/
def markLoop (s : CompilerState) : List String → CompilerState
  | [] => s
  | p :: ps => markLoop (markChanged s p) ps

/-- `markChanged` iterated `n` times on the same path: `n` successive
changed-reports with no intervening removal. -/
def markChangedN (s : CompilerState) (p : String) : Nat → CompilerState
  | 0 => s
  | n + 1 => markChanged (markChangedN s p n) p

/-- The body of the `treeDiff.removedPaths.forEach` loop in `rebuild`:
`rootFilePaths.splice(rootFilePaths.indexOf(p), 1)`, then
`fileRegistry[p] = null`, then `removeOutputFor(p)`.  The initial
`console.log('removing outputs for', p)` has no modelled effect. -/
def processRemoved (cachePath : String) (s : CompilerState) (tsFilePath : String) : CompilerState × Option RebuildError :=
  let s1 := { s with
    rootFilePaths := jsSpliceRemoveAt s.rootFilePaths (jsIndexOf s.rootFilePaths tsFilePath)
    fileRegistry := setFn s.fileRegistry tsFilePath RegEntry.tombstone }
  let r := removeOutputFor cachePath tsFilePath s1.cacheFs
  ({ s1 with cacheFs := r.1 }, r.2)

/-- The whole `removedPaths.forEach` loop; a thrown filesystem error
stops the loop and aborts the cycle, keeping the state mutated so far. -/
def removeLoop (cachePath : String) (s : CompilerState) : List String → CompilerState × Option RebuildError
  | [] => (s, none)
  | p :: ps =>
    let r := processRemoved cachePath s p
    match r.2 with
    | some e => (r.1, some e)
    | none => removeLoop cachePath r.1 ps

/-- `fse.mkdirsSync(path.dirname(o.name)); fs.writeFileSync(o.name, o.text)`
for every produced output file. -/
def writeOutputs (s : CompilerState) (files : List OutputFile) : CompilerState :=
  { s with cacheFs := files.foldl (fun f o => setFn f o.name (some o.text)) s.cacheFs }

/-- The diagnostics collected by `logError`: compiler-options, syntactic
and semantic diagnostics for the path, concatenated in that order. -/
def logErrorDiags (oracle : TSService) (tsFilePath : String) : List Diagnostic :=
  oracle.getCompilerOptionsDiagnostics ++
    oracle.getSyntacticDiagnostics tsFilePath ++
      oracle.getSemanticDiagnostics tsFilePath

/-- `DiffingTSCompiler.prototype.logError`: log every collected
diagnostic and report whether any diagnostic was found
(`!!allDiagnostics.length`). -/
def logError (oracle : TSService) (tsFilePath : String) (s : CompilerState) : CompilerState × Bool :=
  let allDiagnostics := logErrorDiags oracle tsFilePath
  ({ s with trace := s.trace ++ allDiagnostics.map BuildEvent.logDiag },
    !allDiagnostics.isEmpty)

/-- The body of the `pathsToEmit.forEach` loop in `rebuild`: request
emit output for the path; on `emitSkipped`, run `logError` and record
the path in `pathsWithErrors` when an error was found; otherwise write
every produced output file. -/
def emitOnePath (oracle : TSService) (s : CompilerState) (pathsWithErrors : List String) (tsFilePath : String) : CompilerState × List String :=
  let s1 := { s with trace := s.trace ++ [BuildEvent.emitRequest tsFilePath] }
  let output := oracle.getEmitOutput tsFilePath
  if output.emitSkipped then
    let r := logError oracle tsFilePath s1
    if r.2 then (r.1, pathsWithErrors ++ [tsFilePath]) else (r.1, pathsWithErrors)
  else
    (writeOutputs s1 output.outputFiles, pathsWithErrors)

/-- The whole `pathsToEmit.forEach` loop, threading `pathsWithErrors`. -/
def emitLoop (oracle : TSService) (s : CompilerState) (pathsWithErrors : List String) : List String → CompilerState × List String
  | [] => (s, pathsWithErrors)
  | p :: ps =>
    let r := emitOnePath oracle s pathsWithErrors p
    emitLoop oracle r.1 r.2 ps

/-- The message of the `new Error(...)` thrown on compile errors. -/
def tsErrorsMessage : String := "Typescript found errors listed above..."

/-- Substring check over the underlying character lists. -/
def startsWithChars : List Char → List Char → Bool
  | _, [] => true
  | [], _ :: _ => false
  | c :: cs, d :: ds => (c = d) && startsWithChars cs ds

/-- Substring check over the underlying character lists. -/
def listHasSub : List Char → List Char → Bool
  | _, [] => true
  | [], _ :: _ => false
  | c :: cs, pat => startsWithChars (c :: cs) pat || listHasSub cs pat

/-- Does a message reference that errors were found? -/
def mentionsFoundErrors (m : String) : Bool :=
  listHasSub m.data "found errors".data

/-- The `allDiagnostics.forEach` loop of `doFullBuild` building
`errorMessages`.  Reading `diagnostic.file.getLineAndCharacterOfPosition`
on a diagnostic without a file would throw a TypeError, modelled as the
error component; otherwise one formatted message per diagnostic. -/
def collectErrorMessages : List Diagnostic → List String × Option RebuildError
  | [] => ([], none)
  | d :: ds =>
    match d.file with
    | none => ([], some (RebuildError.jsError "TypeError: cannot read file of undefined"))
    | some f =>
      let r := collectErrorMessages ds
      (("  " ++ f.fileName ++ " (" ++ toString (f.line + 1) ++ "," ++ toString (f.character + 1) ++ "): " ++ d.messageText) :: r.1, r.2)

/-- `DiffingTSCompiler.prototype.doFullBuild`: run the whole-program
emit (writing each produced file through the callback); when the emit
was skipped, collect pre-emit plus emit diagnostics; when any messages
were collected, set `previousRunFailed`, log them, and throw; when the
emit was skipped with no messages, clear `previousRunFailed`; when the
emit was not skipped, leave `previousRunFailed` untouched. -/
def doFullBuild (oracle : TSService) (s : CompilerState) : CompilerState × Option RebuildError :=
  let res := oracle.programEmit
  let s1 := writeOutputs { s with trace := s.trace ++ [BuildEvent.fullBuild] } res.writtenFiles
  if res.emitSkipped then
    let allDiagnostics := res.preEmitDiagnostics ++ res.emitDiagnostics
    let r := collectErrorMessages allDiagnostics
    match r.2 with
    | some e => (s1, some e)
    | none =>
      if !r.1.isEmpty then
        ({ s1 with
            previousRunFailed := true
            trace := s1.trace ++ allDiagnostics.map BuildEvent.logDiag },
          some (RebuildError.jsError tsErrorsMessage))
      else
        ({ s1 with previousRunFailed := false }, none)
  else (s1, none)

/-- The build half of `rebuild`, after the diff has been applied: the
first run performs a full build (clearing `firstRun` first); otherwise
emit each changed path, throw when `pathsWithErrors` is non-empty, and
otherwise perform a full build exactly when the previous run failed. -/
def buildPhase (oracle : TSService) (pathsToEmit : List String) (s : CompilerState) : CompilerState × Option RebuildError :=
  if s.firstRun then
    doFullBuild oracle { s with firstRun := false }
  else
    let r := emitLoop oracle s [] pathsToEmit
    if !r.2.isEmpty then
      ({ r.1 with previousRunFailed := true }, some (RebuildError.jsError tsErrorsMessage))
    else if r.1.previousRunFailed then
      doFullBuild oracle r.1
    else (r.1, none)

/-- `DiffingTSCompiler.prototype.rebuild`: apply all changed paths, then
all removed paths (a thrown filesystem error aborts the cycle there),
then run the build phase on the collected `pathsToEmit` (which is the
changed-path list itself). -/
def rebuild (cachePath : String) (oracle : TSService) (s : CompilerState) (treeDiff : TreeDiff) : CompilerState × Option RebuildError :=
  let s1 := markLoop s treeDiff.changedPaths
  let r := removeLoop cachePath s1 treeDiff.removedPaths
  match r.2 with
  | some e => (r.1, some e)
  | none => buildPhase oracle treeDiff.changedPaths r.1

/-- A sequence of cycles: the host calls `rebuild` once per cycle on the
same instance; thrown errors reach the host but the instance survives. -/
def runCalls (cachePath : String) (s : CompilerState) : List (TSService × TreeDiff) → CompilerState
  | [] => s
  | c :: rest => runCalls cachePath (rebuild cachePath c.1 s c.2).1 rest

/-- Whether a `rebuild` call reaches the `if (this.firstRun)` branch
with `firstRun` still true (the INIT full-build branch): the removal
loop must finish without throwing. -/
def initBranchHit (cachePath : String) (s : CompilerState) (treeDiff : TreeDiff) : Bool :=
  s.firstRun &&
    (removeLoop cachePath (markLoop s treeDiff.changedPaths) treeDiff.removedPaths).2.isNone

/-- How many calls of a cycle sequence take the INIT full-build branch. -/
def countInitHits (cachePath : String) (s : CompilerState) : List (TSService × TreeDiff) → Nat
  | [] => 0
  | c :: rest =>
    (if initBranchHit cachePath s c.2 then 1 else 0) +
      countInitHits cachePath (rebuild cachePath c.1 s c.2).1 rest

/-- A language service whose emissions all succeed with no artifacts and
whose whole-program emit succeeds with no diagnostics. -/
def svcOk : TSService :=
  { getEmitOutput := fun _ => { emitSkipped := false, outputFiles := [] }
    getCompilerOptionsDiagnostics := []
    getSyntacticDiagnostics := fun _ => []
    getSemanticDiagnostics := fun _ => []
    programEmit := { emitSkipped := false, writtenFiles := [], preEmitDiagnostics := [], emitDiagnostics := [] } }

/-- A sample diagnostic carrying a source file. -/
def diagA : Diagnostic :=
  { file := some { fileName := "a.ts", line := 0, character := 0 }, messageText := "type error" }

/-- A language service whose whole-program emit is skipped with one
pre-emit diagnostic: its full build fails. -/
def svcFirstFail : TSService :=
  { svcOk with
    programEmit := { emitSkipped := true, writtenFiles := [], preEmitDiagnostics := [diagA], emitDiagnostics := [] } }

/-- A language service that skips every per-path emission but reports no
diagnostics at all for any path. -/
def svcSkipNoDiag : TSService :=
  { svcOk with getEmitOutput := fun _ => { emitSkipped := true, outputFiles := [] } }

/-- A language service that skips every per-path emission and reports a
semantic diagnostic for every path. -/
def svcSkipWithDiag : TSService :=
  { svcOk with
    getEmitOutput := fun _ => { emitSkipped := true, outputFiles := [] }
    getSemanticDiagnostics := fun _ => [diagA] }

/-- A language service for which the path b.ts fails to emit (skipped,
with a semantic diagnostic) while every other path emits one artifact. -/
def svcEmitFailB : TSService :=
  { svcOk with
    getEmitOutput := fun p =>
      if p = "b.ts" then { emitSkipped := true, outputFiles := [] }
      else { emitSkipped := false, outputFiles := [{ name := "cache/" ++ p ++ ".out", text := "generated" }] }
    getSemanticDiagnostics := fun p => if p = "b.ts" then [diagA] else [] }

/-- The instance state after a first cycle whose full build failed: the
DEGRADED state (firstRun false, previousRunFailed true). -/
def stateAfterFailedFirstBuild : CompilerState :=
  (rebuild "cache" svcFirstFail (initialState []) { changedPaths := ["a.ts"], removedPaths := [] }).1

/-- The instance state after a successful first cycle tracking a.ts: the
STEADY state (firstRun false, previousRunFailed false). -/
def stateAfterGoodFirstBuild : CompilerState :=
  (rebuild "cache" svcOk (initialState []) { changedPaths := ["a.ts"], removedPaths := [] }).1

/-- A hand-built STEADY state tracking a.ts, used to instantiate
invariant statements. -/
def stateTrackingA : CompilerState :=
  { fileRegistry := setFn (fun _ => RegEntry.absent) "a.ts" (RegEntry.live 0)
    rootFilePaths := ["a.ts"]
    firstRun := false
    previousRunFailed := false
    cacheFs := fun _ => none
    trace := [] }

/-- A state holding a tombstone for a.ts and nothing else. -/
def stateTombA : CompilerState :=
  { fileRegistry := setFn (fun _ => RegEntry.absent) "a.ts" RegEntry.tombstone
    rootFilePaths := []
    firstRun := false
    previousRunFailed := false
    cacheFs := fun _ => none
    trace := [] }

/-- A cache filesystem holding the three output artifacts of a.ts. -/
def fsysThreeA : FileSys :=
  setFn (setFn (setFn (fun _ => none) "cache/a.js" (some "gen")) "cache/a.js.map" (some "map")) "cache/a.d.ts" (some "dts")

/-- A cache filesystem holding the generated artifact of a.ts and its
declaration artifact, but no source-map artifact. -/
def fsysNoMapA : FileSys :=
  setFn (setFn (fun _ => none) "cache/a.js" (some "gen")) "cache/a.d.ts" (some "dts")

/-- The root-set/registry lockstep invariant of the design: the root set
has no duplicates and holds exactly the paths with a live record. -/
def RegInv (s : CompilerState) : Prop :=
  s.rootFilePaths.Nodup ∧
    ∀ p, p ∈ s.rootFilePaths ↔ isLiveEntry (s.fileRegistry p) = true

/-- The diff-consistency precondition: each removed path holds a live
record at the moment its removal is processed. -/
def removalsConsistent (cachePath : String) (s : CompilerState) : List String → Prop
  | [] => True
  | p :: ps =>
    isLiveEntry (s.fileRegistry p) = true ∧
      removalsConsistent cachePath (processRemoved cachePath s p).1 ps

/-! Field-preservation lemmas for the per-step operations. -/

@[simp]
lemma markChanged_firstRun (s : CompilerState) (p : String) :
    (markChanged s p).firstRun = s.firstRun := by
  unfold markChanged; split <;> rfl

@[simp]
lemma markChanged_previousRunFailed (s : CompilerState) (p : String) :
    (markChanged s p).previousRunFailed = s.previousRunFailed := by
  unfold markChanged; split <;> rfl

@[simp]
lemma markChanged_cacheFs (s : CompilerState) (p : String) :
    (markChanged s p).cacheFs = s.cacheFs := by
  unfold markChanged; split <;> rfl

@[simp]
lemma markChanged_trace (s : CompilerState) (p : String) :
    (markChanged s p).trace = s.trace := by
  unfold markChanged; split <;> rfl

@[simp]
lemma markLoop_firstRun (ps : List String) : ∀ s : CompilerState,
    (markLoop s ps).firstRun = s.firstRun := by
  induction ps with
  | nil => intro s; rfl
  | cons p ps ih => intro s; rw [markLoop, ih, markChanged_firstRun]

@[simp]
lemma markLoop_previousRunFailed (ps : List String) : ∀ s : CompilerState,
    (markLoop s ps).previousRunFailed = s.previousRunFailed := by
  induction ps with
  | nil => intro s; rfl
  | cons p ps ih => intro s; rw [markLoop, ih, markChanged_previousRunFailed]

@[simp]
lemma markLoop_cacheFs (ps : List String) : ∀ s : CompilerState,
    (markLoop s ps).cacheFs = s.cacheFs := by
  induction ps with
  | nil => intro s; rfl
  | cons p ps ih => intro s; rw [markLoop, ih, markChanged_cacheFs]

@[simp]
lemma markLoop_trace (ps : List String) : ∀ s : CompilerState,
    (markLoop s ps).trace = s.trace := by
  induction ps with
  | nil => intro s; rfl
  | cons p ps ih => intro s; rw [markLoop, ih, markChanged_trace]

@[simp]
lemma processRemoved_firstRun (cp : String) (s : CompilerState) (p : String) :
    (processRemoved cp s p).1.firstRun = s.firstRun := rfl

@[simp]
lemma processRemoved_previousRunFailed (cp : String) (s : CompilerState) (p : String) :
    (processRemoved cp s p).1.previousRunFailed = s.previousRunFailed := rfl

@[simp]
lemma processRemoved_trace (cp : String) (s : CompilerState) (p : String) :
    (processRemoved cp s p).1.trace = s.trace := rfl

@[simp]
lemma processRemoved_fileRegistry (cp : String) (s : CompilerState) (p : String) :
    (processRemoved cp s p).1.fileRegistry = setFn s.fileRegistry p RegEntry.tombstone := rfl

@[simp]
lemma processRemoved_rootFilePaths (cp : String) (s : CompilerState) (p : String) :
    (processRemoved cp s p).1.rootFilePaths
      = jsSpliceRemoveAt s.rootFilePaths (jsIndexOf s.rootFilePaths p) := rfl

@[simp]
lemma removeLoop_firstRun (cp : String) (ps : List String) : ∀ s : CompilerState,
    (removeLoop cp s ps).1.firstRun = s.firstRun := by
  induction ps with
  | nil => intro s; rfl
  | cons p ps ih =>
    intro s
    rw [removeLoop]
    cases h : (processRemoved cp s p).2 with
    | some e => simp
    | none => simp [ih]

@[simp]
lemma removeLoop_previousRunFailed (cp : String) (ps : List String) : ∀ s : CompilerState,
    (removeLoop cp s ps).1.previousRunFailed = s.previousRunFailed := by
  induction ps with
  | nil => intro s; rfl
  | cons p ps ih =>
    intro s
    rw [removeLoop]
    cases h : (processRemoved cp s p).2 with
    | some e => simp
    | none => simp [ih]

@[simp]
lemma removeLoop_trace (cp : String) (ps : List String) : ∀ s : CompilerState,
    (removeLoop cp s ps).1.trace = s.trace := by
  induction ps with
  | nil => intro s; rfl
  | cons p ps ih =>
    intro s
    rw [removeLoop]
    cases h : (processRemoved cp s p).2 with
    | some e => simp
    | none => simp [ih]

@[simp]
lemma writeOutputs_fileRegistry (s : CompilerState) (files : List OutputFile) :
    (writeOutputs s files).fileRegistry = s.fileRegistry := rfl

@[simp]
lemma writeOutputs_rootFilePaths (s : CompilerState) (files : List OutputFile) :
    (writeOutputs s files).rootFilePaths = s.rootFilePaths := rfl

@[simp]
lemma writeOutputs_firstRun (s : CompilerState) (files : List OutputFile) :
    (writeOutputs s files).firstRun = s.firstRun := rfl

@[simp]
lemma writeOutputs_previousRunFailed (s : CompilerState) (files : List OutputFile) :
    (writeOutputs s files).previousRunFailed = s.previousRunFailed := rfl

@[simp]
lemma writeOutputs_trace (s : CompilerState) (files : List OutputFile) :
    (writeOutputs s files).trace = s.trace := rfl

lemma emitOnePath_fileRegistry (o : TSService) (s : CompilerState) (pwe : List String) (p : String) :
    (emitOnePath o s pwe p).1.fileRegistry = s.fileRegistry := by
  unfold emitOnePath
  dsimp only
  split
  · unfold logError; dsimp only; split <;> rfl
  · rfl

lemma emitOnePath_rootFilePaths (o : TSService) (s : CompilerState) (pwe : List String) (p : String) :
    (emitOnePath o s pwe p).1.rootFilePaths = s.rootFilePaths := by
  unfold emitOnePath
  dsimp only
  split
  · unfold logError; dsimp only; split <;> rfl
  · rfl

lemma emitOnePath_firstRun (o : TSService) (s : CompilerState) (pwe : List String) (p : String) :
    (emitOnePath o s pwe p).1.firstRun = s.firstRun := by
  unfold emitOnePath
  dsimp only
  split
  · unfold logError; dsimp only; split <;> rfl
  · rfl

lemma emitOnePath_previousRunFailed (o : TSService) (s : CompilerState) (pwe : List String) (p : String) :
    (emitOnePath o s pwe p).1.previousRunFailed = s.previousRunFailed := by
  unfold emitOnePath
  dsimp only
  split
  · unfold logError; dsimp only; split <;> rfl
  · rfl

lemma emitLoop_fileRegistry (o : TSService) (ps : List String) : ∀ (s : CompilerState) (pwe : List String),
    (emitLoop o s pwe ps).1.fileRegistry = s.fileRegistry := by
  induction ps with
  | nil => intro s pwe; rfl
  | cons p ps ih => intro s pwe; rw [emitLoop, ih, emitOnePath_fileRegistry]

lemma emitLoop_rootFilePaths (o : TSService) (ps : List String) : ∀ (s : CompilerState) (pwe : List String),
    (emitLoop o s pwe ps).1.rootFilePaths = s.rootFilePaths := by
  induction ps with
  | nil => intro s pwe; rfl
  | cons p ps ih => intro s pwe; rw [emitLoop, ih, emitOnePath_rootFilePaths]

lemma emitLoop_firstRun (o : TSService) (ps : List String) : ∀ (s : CompilerState) (pwe : List String),
    (emitLoop o s pwe ps).1.firstRun = s.firstRun := by
  induction ps with
  | nil => intro s pwe; rfl
  | cons p ps ih => intro s pwe; rw [emitLoop, ih, emitOnePath_firstRun]

lemma emitLoop_previousRunFailed (o : TSService) (ps : List String) : ∀ (s : CompilerState) (pwe : List String),
    (emitLoop o s pwe ps).1.previousRunFailed = s.previousRunFailed := by
  induction ps with
  | nil => intro s pwe; rfl
  | cons p ps ih => intro s pwe; rw [emitLoop, ih, emitOnePath_previousRunFailed]

lemma doFullBuild_fileRegistry (o : TSService) (s : CompilerState) :
    (doFullBuild o s).1.fileRegistry = s.fileRegistry := by
  unfold doFullBuild
  dsimp only
  split
  · split
    · rfl
    · split <;> rfl
  · rfl

lemma doFullBuild_rootFilePaths (o : TSService) (s : CompilerState) :
    (doFullBuild o s).1.rootFilePaths = s.rootFilePaths := by
  unfold doFullBuild
  dsimp only
  split
  · split
    · rfl
    · split <;> rfl
  · rfl

lemma doFullBuild_firstRun (o : TSService) (s : CompilerState) :
    (doFullBuild o s).1.firstRun = s.firstRun := by
  unfold doFullBuild
  dsimp only
  split
  · split
    · rfl
    · split <;> rfl
  · rfl

lemma buildPhase_fileRegistry (o : TSService) (paths : List String) (s : CompilerState) :
    (buildPhase o paths s).1.fileRegistry = s.fileRegistry := by
  unfold buildPhase
  dsimp only
  split
  · rw [doFullBuild_fileRegistry]
  · split
    · exact emitLoop_fileRegistry o paths s []
    · split
      · rw [doFullBuild_fileRegistry, emitLoop_fileRegistry]
      · exact emitLoop_fileRegistry o paths s []

lemma buildPhase_rootFilePaths (o : TSService) (paths : List String) (s : CompilerState) :
    (buildPhase o paths s).1.rootFilePaths = s.rootFilePaths := by
  unfold buildPhase
  dsimp only
  split
  · rw [doFullBuild_rootFilePaths]
  · split
    · exact emitLoop_rootFilePaths o paths s []
    · split
      · rw [doFullBuild_rootFilePaths, emitLoop_rootFilePaths]
      · exact emitLoop_rootFilePaths o paths s []

lemma buildPhase_firstRun (o : TSService) (paths : List String) (s : CompilerState) :
    (buildPhase o paths s).1.firstRun = false ∨ (buildPhase o paths s).1.firstRun = s.firstRun := by
  unfold buildPhase
  dsimp only
  split
  · left; rw [doFullBuild_firstRun]
  · right
    split
    · exact emitLoop_firstRun o paths s []
    · split
      · rw [doFullBuild_firstRun, emitLoop_firstRun]
      · exact emitLoop_firstRun o paths s []

/-! Trace lemmas: which events a cycle records. -/

lemma mem_trace_emitOnePath (o : TSService) (s : CompilerState) (pwe : List String) (p : String)
    (e : BuildEvent) (h : e ∈ s.trace) : e ∈ (emitOnePath o s pwe p).1.trace := by
  unfold emitOnePath
  dsimp only
  split
  · unfold logError
    dsimp only
    split <;> simp [h]
  · simp [writeOutputs, h]

lemma emitRequest_mem_emitOnePath (o : TSService) (s : CompilerState) (pwe : List String) (p : String) :
    BuildEvent.emitRequest p ∈ (emitOnePath o s pwe p).1.trace := by
  unfold emitOnePath
  dsimp only
  split
  · unfold logError
    dsimp only
    split <;> simp
  · simp [writeOutputs]

lemma logDiag_mem_emitOnePath (o : TSService) (s : CompilerState) (pwe : List String) (p : String)
    (hsk : (o.getEmitOutput p).emitSkipped = true) (d : Diagnostic) (hd : d ∈ logErrorDiags o p) :
    BuildEvent.logDiag d ∈ (emitOnePath o s pwe p).1.trace := by
  unfold emitOnePath
  dsimp only
  rw [if_pos hsk]
  unfold logError
  dsimp only
  split <;> exact List.mem_append_right _ (List.mem_map_of_mem BuildEvent.logDiag hd)

lemma mem_trace_emitLoop (o : TSService) (ps : List String) : ∀ (s : CompilerState) (pwe : List String)
    (e : BuildEvent), e ∈ s.trace → e ∈ (emitLoop o s pwe ps).1.trace := by
  induction ps with
  | nil => intro s pwe e h; exact h
  | cons p ps ih =>
    intro s pwe e h
    rw [emitLoop]
    exact ih _ _ e (mem_trace_emitOnePath o s pwe p e h)

lemma emitRequest_mem_emitLoop (o : TSService) (ps : List String) : ∀ (s : CompilerState)
    (pwe : List String) (p : String), p ∈ ps →
    BuildEvent.emitRequest p ∈ (emitLoop o s pwe ps).1.trace := by
  induction ps with
  | nil => intro s pwe p h; cases h
  | cons q ps ih =>
    intro s pwe p h
    rw [emitLoop]
    rcases List.mem_cons.mp h with h1 | h2
    · subst h1
      exact mem_trace_emitLoop o ps _ _ _ (emitRequest_mem_emitOnePath o s pwe p)
    · exact ih _ _ p h2

lemma logDiag_mem_emitLoop (o : TSService) (ps : List String) : ∀ (s : CompilerState)
    (pwe : List String) (p : String), p ∈ ps → (o.getEmitOutput p).emitSkipped = true →
    ∀ d ∈ logErrorDiags o p, BuildEvent.logDiag d ∈ (emitLoop o s pwe ps).1.trace := by
  induction ps with
  | nil => intro s pwe p h; cases h
  | cons q ps ih =>
    intro s pwe p h hsk d hd
    rw [emitLoop]
    rcases List.mem_cons.mp h with h1 | h2
    · subst h1
      exact mem_trace_emitLoop o ps _ _ _ (logDiag_mem_emitOnePath o s pwe p hsk d hd)
    · exact ih _ _ p h2 hsk d hd

lemma mem_trace_doFullBuild (o : TSService) (s : CompilerState) (e : BuildEvent)
    (h : e ∈ s.trace) : e ∈ (doFullBuild o s).1.trace := by
  unfold doFullBuild
  dsimp only
  split
  · split
    · simp [writeOutputs, h]
    · split <;> simp [writeOutputs, h]
  · simp [writeOutputs, h]

lemma fullBuild_mem_doFullBuild (o : TSService) (s : CompilerState) :
    BuildEvent.fullBuild ∈ (doFullBuild o s).1.trace := by
  unfold doFullBuild
  dsimp only
  split
  · split
    · simp [writeOutputs]
    · split <;> simp [writeOutputs]
  · simp [writeOutputs]

/-! Lemmas about the accumulated pathsWithErrors list. -/

lemma pwe_mem_emitOnePath (o : TSService) (s : CompilerState) (pwe : List String) (p q : String)
    (h : q ∈ pwe) : q ∈ (emitOnePath o s pwe p).2 := by
  unfold emitOnePath
  dsimp only
  split
  · split
    · exact List.mem_append_left _ h
    · exact h
  · exact h

lemma pwe_mem_emitLoop (o : TSService) (ps : List String) : ∀ (s : CompilerState)
    (pwe : List String) (q : String), q ∈ pwe → q ∈ (emitLoop o s pwe ps).2 := by
  induction ps with
  | nil => intro s pwe q h; exact h
  | cons p ps ih =>
    intro s pwe q h
    rw [emitLoop]
    exact ih _ _ q (pwe_mem_emitOnePath o s pwe p q h)

lemma failed_mem_emitOnePath (o : TSService) (s : CompilerState) (pwe : List String) (p : String)
    (hsk : (o.getEmitOutput p).emitSkipped = true) (hd : logErrorDiags o p ≠ []) :
    p ∈ (emitOnePath o s pwe p).2 := by
  unfold emitOnePath
  dsimp only
  rw [if_pos hsk]
  unfold logError
  dsimp only
  have : (!(logErrorDiags o p).isEmpty) = true := by
    simp [List.isEmpty_iff, hd]
  rw [if_pos this]
  exact List.mem_append_right _ (List.mem_singleton.mpr rfl)

lemma failed_mem_emitLoop (o : TSService) (ps : List String) : ∀ (s : CompilerState)
    (pwe : List String) (p : String), p ∈ ps → (o.getEmitOutput p).emitSkipped = true →
    logErrorDiags o p ≠ [] → p ∈ (emitLoop o s pwe ps).2 := by
  induction ps with
  | nil => intro s pwe p h; cases h
  | cons q ps ih =>
    intro s pwe p h hsk hd
    rw [emitLoop]
    rcases List.mem_cons.mp h with h1 | h2
    · subst h1
      exact pwe_mem_emitLoop o ps _ _ p (failed_mem_emitOnePath o s pwe p hsk hd)
    · exact ih _ _ p h2 hsk hd

/-! Filesystem lemmas: what the emission phase writes. -/

lemma writeFold_cases (files : List OutputFile) : ∀ (f0 : FileSys) (q : String),
    (files.foldl (fun f o => setFn f o.name (some o.text)) f0) q = f0 q ∨
      ∃ f ∈ files, f.name = q := by
  induction files with
  | nil => intro f0 q; exact Or.inl rfl
  | cons a as ih =>
    intro f0 q
    rw [List.foldl_cons]
    rcases ih (setFn f0 a.name (some a.text)) q with h | ⟨f, hf, hq⟩
    · by_cases hq : q = a.name
      · exact Or.inr ⟨a, List.mem_cons_self a as, hq.symm⟩
      · left
        rw [h]
        simp [setFn, hq]
    · exact Or.inr ⟨f, List.mem_cons_of_mem a hf, hq⟩

lemma writeFold_isSome (files : List OutputFile) : ∀ (f0 : FileSys) (q : String),
    (f0 q).isSome = true →
    ((files.foldl (fun f o => setFn f o.name (some o.text)) f0) q).isSome = true := by
  induction files with
  | nil => intro f0 q h; exact h
  | cons a as ih =>
    intro f0 q h
    rw [List.foldl_cons]
    apply ih
    by_cases hq : q = a.name <;> simp [setFn, hq, h]

lemma writeFold_name_isSome (files : List OutputFile) : ∀ (f0 : FileSys) (f : OutputFile),
    f ∈ files →
    ((files.foldl (fun f o => setFn f o.name (some o.text)) f0) f.name).isSome = true := by
  induction files with
  | nil => intro f0 f h; cases h
  | cons a as ih =>
    intro f0 f h
    rw [List.foldl_cons]
    rcases List.mem_cons.mp h with h1 | h2
    · subst h1
      apply writeFold_isSome
      simp [setFn]
    · exact ih _ f h2

lemma emitOnePath_cacheFs_cases (o : TSService) (s : CompilerState) (pwe : List String)
    (p q : String) :
    (emitOnePath o s pwe p).1.cacheFs q = s.cacheFs q ∨
      ((o.getEmitOutput p).emitSkipped = false ∧
        ∃ f ∈ (o.getEmitOutput p).outputFiles, f.name = q) := by
  unfold emitOnePath
  dsimp only
  split
  · unfold logError
    dsimp only
    split <;> exact Or.inl rfl
  · rename_i hsk
    rcases writeFold_cases (o.getEmitOutput p).outputFiles s.cacheFs q with h | h
    · exact Or.inl h
    · exact Or.inr ⟨by revert hsk; cases (o.getEmitOutput p).emitSkipped <;> simp, h⟩

lemma emitOnePath_cacheFs_isSome (o : TSService) (s : CompilerState) (pwe : List String)
    (p q : String) (h : (s.cacheFs q).isSome = true) :
    ((emitOnePath o s pwe p).1.cacheFs q).isSome = true := by
  unfold emitOnePath
  dsimp only
  split
  · unfold logError
    dsimp only
    split <;> exact h
  · exact writeFold_isSome _ _ _ h

lemma emitLoop_cacheFs_cases (o : TSService) (ps : List String) : ∀ (s : CompilerState)
    (pwe : List String) (q : String),
    (emitLoop o s pwe ps).1.cacheFs q = s.cacheFs q ∨
      ∃ p ∈ ps, (o.getEmitOutput p).emitSkipped = false ∧
        ∃ f ∈ (o.getEmitOutput p).outputFiles, f.name = q := by
  induction ps with
  | nil => intro s pwe q; exact Or.inl rfl
  | cons p ps ih =>
    intro s pwe q
    rw [emitLoop]
    rcases ih (emitOnePath o s pwe p).1 (emitOnePath o s pwe p).2 q with h | ⟨r, hr, hrest⟩
    · rcases emitOnePath_cacheFs_cases o s pwe p q with h2 | ⟨hsk, hf⟩
      · exact Or.inl (h.trans h2)
      · exact Or.inr ⟨p, List.mem_cons_self p ps, hsk, hf⟩
    · exact Or.inr ⟨r, List.mem_cons_of_mem p hr, hrest⟩

lemma emitLoop_cacheFs_isSome (o : TSService) (ps : List String) : ∀ (s : CompilerState)
    (pwe : List String) (q : String), (s.cacheFs q).isSome = true →
    ((emitLoop o s pwe ps).1.cacheFs q).isSome = true := by
  induction ps with
  | nil => intro s pwe q h; exact h
  | cons p ps ih =>
    intro s pwe q h
    rw [emitLoop]
    exact ih _ _ q (emitOnePath_cacheFs_isSome o s pwe p q h)

lemma emitLoop_success_written (o : TSService) (ps : List String) : ∀ (s : CompilerState)
    (pwe : List String) (p : String), p ∈ ps → (o.getEmitOutput p).emitSkipped = false →
    ∀ f ∈ (o.getEmitOutput p).outputFiles,
      ((emitLoop o s pwe ps).1.cacheFs f.name).isSome = true := by
  induction ps with
  | nil => intro s pwe p h; cases h
  | cons q ps ih =>
    intro s pwe p h hsk f hf
    rw [emitLoop]
    rcases List.mem_cons.mp h with h1 | h2
    · subst h1
      apply emitLoop_cacheFs_isSome
      unfold emitOnePath
      dsimp only
      rw [if_neg (by simp [hsk])]
      exact writeFold_name_isSome _ _ f hf
    · exact ih _ _ p h2 hsk f hf

/-! Characterization of indexOf/splice, the JS array operations used by
the removal branch. -/

lemma jsIndexOf_of_not_mem (p : String) : ∀ l : List String, p ∉ l → jsIndexOf l p = -1 := by
  intro l
  induction l with
  | nil => intro _; rfl
  | cons x xs ih =>
    intro h
    have hx : ¬ x = p := fun e => h (by rw [e]; exact List.mem_cons_self p xs)
    have hxs : p ∉ xs := fun hm => h (List.mem_cons_of_mem x hm)
    simp [jsIndexOf, hx, ih hxs]

lemma jsIndexOf_bounds_of_mem (p : String) : ∀ l : List String, p ∈ l →
    0 ≤ jsIndexOf l p ∧ jsIndexOf l p < (l.length : Int) := by
  intro l
  induction l with
  | nil => intro h; cases h
  | cons x xs ih =>
    intro h
    by_cases hx : x = p
    · simp [jsIndexOf, hx]
    · have hm : p ∈ xs := by
        rcases List.mem_cons.mp h with h1 | h2
        · exact absurd h1.symm hx
        · exact h2
      obtain ⟨h1, h2⟩ := ih hm
      have hne : ¬ jsIndexOf xs p = -1 := by omega
      simp only [jsIndexOf, if_neg hx, if_neg hne, List.length_cons]
      push_cast
      omega

lemma eraseIdx_length_sub_one : ∀ l : List String, l.eraseIdx (l.length - 1) = l.dropLast := by
  intro l
  induction l with
  | nil => rfl
  | cons a t ih =>
    cases t with
    | nil => rfl
    | cons b t2 =>
      have hlen : (a :: b :: t2).length - 1 = ((b :: t2).length - 1) + 1 := by
        simp [List.length_cons]
      rw [hlen, List.eraseIdx_cons_succ, ih]
      rfl

lemma eraseIdx_of_mem_indexOf (p : String) : ∀ l : List String, p ∈ l →
    l.eraseIdx (jsIndexOf l p).toNat = l.erase p := by
  intro l
  induction l with
  | nil => intro h; cases h
  | cons x xs ih =>
    intro h
    by_cases hx : x = p
    · subst hx
      simp [jsIndexOf]
    · have hm : p ∈ xs := by
        rcases List.mem_cons.mp h with h1 | h2
        · exact absurd h1.symm hx
        · exact h2
      obtain ⟨h1, _⟩ := jsIndexOf_bounds_of_mem p xs hm
      have hne : ¬ jsIndexOf xs p = -1 := by omega
      have htn : (jsIndexOf xs p + 1).toNat = (jsIndexOf xs p).toNat + 1 := by omega
      rw [List.erase_cons_tail (by simp [hx])]
      simp only [jsIndexOf, if_neg hx, if_neg hne, htn, List.eraseIdx_cons_succ]
      rw [ih hm]

lemma jsSplice_of_mem (p : String) (l : List String) (h : p ∈ l) :
    jsSpliceRemoveAt l (jsIndexOf l p) = l.erase p := by
  obtain ⟨h1, h2⟩ := jsIndexOf_bounds_of_mem p l h
  unfold jsSpliceRemoveAt
  dsimp only
  rw [if_neg (by omega), min_eq_left (by omega)]
  exact eraseIdx_of_mem_indexOf p l h

lemma jsSplice_of_not_mem (p : String) (l : List String) (h : p ∉ l) :
    jsSpliceRemoveAt l (jsIndexOf l p) = l.dropLast := by
  rw [jsIndexOf_of_not_mem p l h]
  unfold jsSpliceRemoveAt
  dsimp only
  rw [if_pos (by norm_num)]
  have ht : (max ((l.length : Int) + -1) 0).toNat = l.length - 1 := by omega
  rw [ht]
  exact eraseIdx_length_sub_one l

/-! Lemmas about doFullBuild and the failure flag. -/

lemma collectErrorMessages_wf : ∀ ds : List Diagnostic, (∀ d ∈ ds, d.file.isSome = true) →
    (collectErrorMessages ds).2 = none ∧ (collectErrorMessages ds).1.length = ds.length := by
  intro ds
  induction ds with
  | nil => intro _; exact ⟨rfl, rfl⟩
  | cons d ds ih =>
    intro h
    have hd : d.file.isSome = true := h d (List.mem_cons_self d ds)
    obtain ⟨f, hf⟩ := Option.isSome_iff_exists.mp hd
    obtain ⟨ih1, ih2⟩ := ih (fun x hx => h x (List.mem_cons_of_mem d hx))
    rw [collectErrorMessages, hf]
    exact ⟨ih1, by simp [ih2]⟩

lemma collectErrorMessages_empty_iff (ds : List Diagnostic)
    (hWf : ∀ d ∈ ds, d.file.isSome = true) :
    (collectErrorMessages ds).1.isEmpty = ds.isEmpty := by
  obtain ⟨_, hc1⟩ := collectErrorMessages_wf ds hWf
  cases hemp : ds.isEmpty with
  | true =>
    rw [List.isEmpty_iff] at hemp ⊢
    rw [← List.length_eq_zero, hc1, List.length_eq_zero]
    exact hemp
  | false =>
    have hds : ds ≠ [] := by
      intro e
      rw [e] at hemp
      simp at hemp
    have hlen : ds.length ≠ 0 := by simpa [List.length_eq_zero] using hds
    cases h2 : (collectErrorMessages ds).1.isEmpty with
    | false => rfl
    | true =>
      exfalso
      apply hlen
      rw [← hc1, List.isEmpty_iff.mp h2]
      rfl

lemma doFullBuild_previousRunFailed (o : TSService) (s : CompilerState)
    (hWf : ∀ d ∈ o.programEmit.preEmitDiagnostics ++ o.programEmit.emitDiagnostics,
      d.file.isSome = true) :
    (doFullBuild o s).1.previousRunFailed =
      (if o.programEmit.emitSkipped = false then s.previousRunFailed
       else if (o.programEmit.preEmitDiagnostics ++ o.programEmit.emitDiagnostics).isEmpty then false
       else true) := by
  obtain ⟨hc2, _⟩ := collectErrorMessages_wf _ hWf
  have hemp := collectErrorMessages_empty_iff _ hWf
  unfold doFullBuild
  dsimp only
  cases hsk : o.programEmit.emitSkipped with
  | false => simp [writeOutputs]
  | true =>
    rw [if_pos rfl, if_neg (show ¬ true = false by simp), hc2]
    dsimp only
    cases hde : (o.programEmit.preEmitDiagnostics ++ o.programEmit.emitDiagnostics).isEmpty with
    | true =>
      rw [hde] at hemp
      rw [if_neg (by simp [hemp]), if_pos rfl]
    | false =>
      rw [hde] at hemp
      rw [if_pos (by simp [hemp]), if_neg (by simp)]

lemma doFullBuild_error_of_failure (o : TSService) (s : CompilerState)
    (hsk : o.programEmit.emitSkipped = true)
    (hWf : ∀ d ∈ o.programEmit.preEmitDiagnostics ++ o.programEmit.emitDiagnostics,
      d.file.isSome = true)
    (hne : (o.programEmit.preEmitDiagnostics ++ o.programEmit.emitDiagnostics) ≠ []) :
    (doFullBuild o s).2 = some (RebuildError.jsError tsErrorsMessage) ∧
      (doFullBuild o s).1.previousRunFailed = true := by
  obtain ⟨hc2, _⟩ := collectErrorMessages_wf _ hWf
  have hemp := collectErrorMessages_empty_iff _ hWf
  have hde : (o.programEmit.preEmitDiagnostics ++ o.programEmit.emitDiagnostics).isEmpty = false := by
    cases h2 : (o.programEmit.preEmitDiagnostics ++ o.programEmit.emitDiagnostics).isEmpty with
    | false => rfl
    | true => exact absurd (List.isEmpty_iff.mp h2) hne
  rw [hde] at hemp
  unfold doFullBuild
  dsimp only
  rw [hsk, if_pos rfl, hc2]
  dsimp only
  rw [if_pos (by simp [hemp])]
  exact ⟨rfl, rfl⟩

/-! Reduction lemmas for the branches of rebuild. -/

lemma removeLoop_nil (cp : String) (s : CompilerState) : removeLoop cp s [] = (s, none) := rfl

lemma rebuild_of_removeLoop_ok (cp : String) (o : TSService) (s : CompilerState) (d : TreeDiff)
    (h : (removeLoop cp (markLoop s d.changedPaths) d.removedPaths).2 = none) :
    rebuild cp o s d
      = buildPhase o d.changedPaths (removeLoop cp (markLoop s d.changedPaths) d.removedPaths).1 := by
  unfold rebuild
  dsimp only
  rw [h]

lemma rebuild_of_removeLoop_err (cp : String) (o : TSService) (s : CompilerState) (d : TreeDiff)
    (e : RebuildError)
    (h : (removeLoop cp (markLoop s d.changedPaths) d.removedPaths).2 = some e) :
    rebuild cp o s d
      = ((removeLoop cp (markLoop s d.changedPaths) d.removedPaths).1, some e) := by
  unfold rebuild
  dsimp only
  rw [h]

lemma buildPhase_first (o : TSService) (paths : List String) (s : CompilerState)
    (h : s.firstRun = true) :
    buildPhase o paths s = doFullBuild o { s with firstRun := false } := by
  unfold buildPhase
  rw [if_pos h]

lemma buildPhase_throw (o : TSService) (paths : List String) (s : CompilerState)
    (hF : s.firstRun = false) (hne : (emitLoop o s [] paths).2 ≠ []) :
    buildPhase o paths s
      = ({ (emitLoop o s [] paths).1 with previousRunFailed := true },
          some (RebuildError.jsError tsErrorsMessage)) := by
  unfold buildPhase
  dsimp only
  rw [if_neg (by simp [hF])]
  rw [if_pos (by simpa [List.isEmpty_iff] using hne)]

lemma buildPhase_recover (o : TSService) (paths : List String) (s : CompilerState)
    (hF : s.firstRun = false) (hok : (emitLoop o s [] paths).2 = [])
    (hPrev : s.previousRunFailed = true) :
    buildPhase o paths s = doFullBuild o (emitLoop o s [] paths).1 := by
  unfold buildPhase
  dsimp only
  rw [if_neg (by simp [hF])]
  rw [if_neg (by simp [hok])]
  rw [if_pos (by rw [emitLoop_previousRunFailed]; exact hPrev)]

lemma buildPhase_steady (o : TSService) (paths : List String) (s : CompilerState)
    (hF : s.firstRun = false) (hok : (emitLoop o s [] paths).2 = [])
    (hPrev : s.previousRunFailed = false) :
    buildPhase o paths s = ((emitLoop o s [] paths).1, none) := by
  unfold buildPhase
  dsimp only
  rw [if_neg (by simp [hF])]
  rw [if_neg (by simp [hok])]
  rw [if_neg (by rw [emitLoop_previousRunFailed, hPrev]; simp)]

/-! Pointwise-update and markChanged reduction lemmas. -/

@[simp]
lemma setFn_same {β : Type} (f : String → β) (p : String) (v : β) : setFn f p v p = v := by
  simp [setFn]

lemma setFn_other {β : Type} (f : String → β) (p q : String) (v : β) (h : q ≠ p) :
    setFn f p v q = f q := by
  simp [setFn, h]

lemma markChanged_of_not_live (s : CompilerState) (p : String)
    (h : isLiveEntry (s.fileRegistry p) = false) :
    markChanged s p = { s with
      fileRegistry := setFn s.fileRegistry p (RegEntry.live 0)
      rootFilePaths := s.rootFilePaths ++ [p] } := by
  unfold markChanged
  cases hre : s.fileRegistry p with
  | live v => rw [hre] at h; simp [isLiveEntry] at h
  | absent => rfl
  | tombstone => rfl

lemma markChanged_of_live (s : CompilerState) (p : String) (v : Nat)
    (h : s.fileRegistry p = RegEntry.live v) :
    markChanged s p = { s with fileRegistry := setFn s.fileRegistry p (RegEntry.live (v + 1)) } := by
  unfold markChanged
  rw [h]

/-! Preservation of the root-set/registry lockstep invariant. -/

lemma RegInv_of_fields (s1 s2 : CompilerState)
    (hr : s2.fileRegistry = s1.fileRegistry) (hp : s2.rootFilePaths = s1.rootFilePaths)
    (h : RegInv s1) : RegInv s2 := by
  obtain ⟨h1, h2⟩ := h
  exact ⟨by rw [hp]; exact h1, fun p => by rw [hp, hr]; exact h2 p⟩

lemma RegInv_markChanged (s : CompilerState) (p : String) (h : RegInv s) :
    RegInv (markChanged s p) := by
  obtain ⟨hnd, hmem⟩ := h
  cases hlive : isLiveEntry (s.fileRegistry p) with
  | true =>
    obtain ⟨v, hv⟩ : ∃ v, s.fileRegistry p = RegEntry.live v := by
      cases hre : s.fileRegistry p with
      | live v => exact ⟨v, rfl⟩
      | absent => rw [hre] at hlive; simp [isLiveEntry] at hlive
      | tombstone => rw [hre] at hlive; simp [isLiveEntry] at hlive
    rw [markChanged_of_live s p v hv]
    refine ⟨hnd, fun q => ?_⟩
    dsimp only
    by_cases hq : q = p
    · subst hq
      simp only [setFn_same]
      have := hmem q
      rw [hv] at this
      simpa [isLiveEntry] using this
    · rw [setFn_other _ _ _ _ hq]
      exact hmem q
  | false =>
    have hnmem : p ∉ s.rootFilePaths := fun hm => by
      have := (hmem p).mp hm
      rw [hlive] at this
      cases this
    rw [markChanged_of_not_live s p hlive]
    constructor
    · dsimp only
      rw [List.nodup_append]
      exact ⟨hnd, List.nodup_singleton p,
        fun a ha hb => hnmem (by rwa [List.mem_singleton.mp hb] at ha)⟩
    · intro q
      dsimp only
      by_cases hq : q = p
      · subst hq
        simp only [setFn_same]
        constructor
        · intro _; rfl
        · intro _; exact List.mem_append_right _ (List.mem_singleton.mpr rfl)
      · rw [setFn_other _ _ _ _ hq]
        rw [List.mem_append, List.mem_singleton]
        constructor
        · intro hc
          rcases hc with hc | hc
          · exact (hmem q).mp hc
          · exact absurd hc hq
        · intro hc
          exact Or.inl ((hmem q).mpr hc)

lemma RegInv_markLoop (ps : List String) : ∀ s : CompilerState, RegInv s →
    RegInv (markLoop s ps) := by
  induction ps with
  | nil => intro s h; exact h
  | cons p ps ih => intro s h; exact ih _ (RegInv_markChanged s p h)

lemma RegInv_processRemoved (cp : String) (s : CompilerState) (p : String) (h : RegInv s)
    (hlive : isLiveEntry (s.fileRegistry p) = true) :
    RegInv (processRemoved cp s p).1 := by
  obtain ⟨hnd, hmem⟩ := h
  have hp : p ∈ s.rootFilePaths := (hmem p).mpr hlive
  constructor
  · rw [processRemoved_rootFilePaths, jsSplice_of_mem p _ hp]
    exact hnd.erase p
  · intro q
    rw [processRemoved_rootFilePaths, processRemoved_fileRegistry, jsSplice_of_mem p _ hp]
    by_cases hq : q = p
    · subst hq
      simp only [setFn_same]
      constructor
      · intro hc
        exact absurd rfl (hnd.mem_erase_iff.mp hc).1
      · intro hc
        cases hc
    · rw [setFn_other _ _ _ _ hq, hnd.mem_erase_iff]
      constructor
      · intro hc; exact (hmem q).mp hc.2
      · intro hc; exact ⟨hq, (hmem q).mpr hc⟩

lemma RegInv_removeLoop (cp : String) (ps : List String) : ∀ s : CompilerState, RegInv s →
    removalsConsistent cp s ps → RegInv (removeLoop cp s ps).1 := by
  induction ps with
  | nil => intro s h _; exact h
  | cons p ps ih =>
    intro s h hc
    obtain ⟨hc1, hc2⟩ := hc
    rw [removeLoop]
    cases he : (processRemoved cp s p).2 with
    | some e => exact RegInv_processRemoved cp s p h hc1
    | none => exact ih _ (RegInv_processRemoved cp s p h hc1) hc2

lemma removalsConsistent_take (cp : String) (ps : List String) : ∀ (s : CompilerState) (k : Nat),
    removalsConsistent cp s ps → removalsConsistent cp s (ps.take k) := by
  induction ps with
  | nil => intro s k _; rw [List.take_nil]; trivial
  | cons p ps ih =>
    intro s k h
    cases k with
    | zero => trivial
    | succ k => exact ⟨h.1, ih _ k h.2⟩

lemma RegInv_buildPhase (o : TSService) (paths : List String) (s : CompilerState)
    (h : RegInv s) : RegInv (buildPhase o paths s).1 :=
  RegInv_of_fields s _ (buildPhase_fileRegistry o paths s) (buildPhase_rootFilePaths o paths s) h

/-! Helper lemmas about firstRun and the INIT branch. -/

lemma removeOutputFor_emptyFs (cp p : String) (fsys : FileSys) (h : ∀ q, fsys q = none) :
    removeOutputFor cp p fsys = (fsys, none) := by
  unfold removeOutputFor
  dsimp only
  rw [h (absoluteJsFilePath cp p)]
  rfl

lemma removeLoop_emptyFs (cp : String) (ps : List String) : ∀ s : CompilerState,
    (∀ q, s.cacheFs q = none) →
    (removeLoop cp s ps).2 = none ∧ (∀ q, (removeLoop cp s ps).1.cacheFs q = none) := by
  induction ps with
  | nil => intro s h; exact ⟨rfl, h⟩
  | cons p ps ih =>
    intro s h
    have hstep : processRemoved cp s p
        = ({ s with
              rootFilePaths := jsSpliceRemoveAt s.rootFilePaths (jsIndexOf s.rootFilePaths p)
              fileRegistry := setFn s.fileRegistry p RegEntry.tombstone }, none) := by
      unfold processRemoved
      dsimp only
      rw [removeOutputFor_emptyFs cp p s.cacheFs h]
    rw [removeLoop, hstep]
    exact ih _ h

lemma rebuild_firstRun_of_false (cp : String) (o : TSService) (s : CompilerState) (d : TreeDiff)
    (h : s.firstRun = false) : (rebuild cp o s d).1.firstRun = false := by
  cases he : (removeLoop cp (markLoop s d.changedPaths) d.removedPaths).2 with
  | some e =>
    rw [rebuild_of_removeLoop_err cp o s d e he]
    simp [h]
  | none =>
    rw [rebuild_of_removeLoop_ok cp o s d he]
    rcases buildPhase_firstRun o d.changedPaths (removeLoop cp (markLoop s d.changedPaths) d.removedPaths).1 with h2 | h2
    · exact h2
    · rw [h2]; simp [h]

lemma rebuild_firstRun_of_hit (cp : String) (o : TSService) (s : CompilerState) (d : TreeDiff)
    (h : initBranchHit cp s d = true) : (rebuild cp o s d).1.firstRun = false := by
  unfold initBranchHit at h
  rw [Bool.and_eq_true] at h
  obtain ⟨h1, h2⟩ := h
  rw [Option.isNone_iff_eq_none] at h2
  rw [rebuild_of_removeLoop_ok cp o s d h2]
  rw [buildPhase_first o d.changedPaths _ (by simp [h1])]
  rw [doFullBuild_firstRun]

lemma countInitHits_zero (cp : String) (calls : List (TSService × TreeDiff)) :
    ∀ s : CompilerState, s.firstRun = false → countInitHits cp s calls = 0 := by
  induction calls with
  | nil => intro s _; rfl
  | cons c rest ih =>
    intro s h
    rw [countInitHits]
    rw [if_neg (by unfold initBranchHit; simp [h])]
    rw [ih _ (rebuild_firstRun_of_false cp c.1 s c.2 h)]

lemma countInitHits_le_one (cp : String) (calls : List (TSService × TreeDiff)) :
    ∀ s : CompilerState, countInitHits cp s calls ≤ 1 := by
  induction calls with
  | nil => intro s; exact Nat.zero_le 1
  | cons c rest ih =>
    intro s
    rw [countInitHits]
    cases hh : initBranchHit cp s c.2 with
    | true =>
      rw [if_pos rfl]
      rw [countInitHits_zero cp rest _ (rebuild_firstRun_of_hit cp c.1 s c.2 hh)]
    | false =>
      rw [if_neg (by simp)]
      rw [Nat.zero_add]
      exact ih _

lemma runCalls_firstRun_of_false (cp : String) (calls : List (TSService × TreeDiff)) :
    ∀ s : CompilerState, s.firstRun = false → (runCalls cp s calls).firstRun = false := by
  induction calls with
  | nil => intro s h; exact h
  | cons c rest ih =>
    intro s h
    rw [runCalls]
    exact ih _ (rebuild_firstRun_of_false cp c.1 s c.2 h)

lemma rebuild_initial_firstRun (cp : String) (roots : List String) (o : TSService) (d : TreeDiff) :
    (rebuild cp o (initialState roots) d).1.firstRun = false := by
  have hfs : ∀ q, (markLoop (initialState roots) d.changedPaths).cacheFs q = none := by
    intro q
    rw [markLoop_cacheFs]
    rfl
  obtain ⟨hok, _⟩ := removeLoop_emptyFs cp d.removedPaths _ hfs
  rw [rebuild_of_removeLoop_ok cp o _ d hok]
  rw [buildPhase_first o d.changedPaths _ (by simp [initialState])]
  rw [doFullBuild_firstRun]

/-! Iterated markChanged: version counting. -/

lemma markChangedN_spec (s : CompilerState) (p : String)
    (h0 : s.fileRegistry p = RegEntry.absent) :
    ∀ m, (markChangedN s p (m + 1)).fileRegistry p = RegEntry.live m ∧
      (markChangedN s p (m + 1)).rootFilePaths = s.rootFilePaths ++ [p] := by
  intro m
  induction m with
  | zero =>
    have hl : isLiveEntry (s.fileRegistry p) = false := by rw [h0]; rfl
    show (markChanged s p).fileRegistry p = RegEntry.live 0 ∧
      (markChanged s p).rootFilePaths = s.rootFilePaths ++ [p]
    rw [markChanged_of_not_live s p hl]
    exact ⟨setFn_same _ _ _, rfl⟩
  | succ m ih =>
    obtain ⟨ih1, ih2⟩ := ih
    show (markChanged (markChangedN s p (m + 1)) p).fileRegistry p = RegEntry.live (m + 1) ∧
      (markChanged (markChangedN s p (m + 1)) p).rootFilePaths = s.rootFilePaths ++ [p]
    rw [markChanged_of_live _ p m ih1]
    exact ⟨setFn_same _ _ _, ih2⟩

/-! String facts for the artifact-path suffix transformations. -/

lemma strData_append (a b : String) : (a ++ b).data = a.data ++ b.data := by
  cases a
  cases b
  rfl

lemma strLen_append (a b : String) : (a ++ b).data.length = a.data.length + b.data.length := by
  rw [strData_append, List.length_append]

lemma String.ne_of_data_length {a b : String} (h : a.data.length ≠ b.data.length) : a ≠ b :=
  fun e => h (congrArg (fun s => s.data.length) e)

lemma artifact_paths (cp p : String) (h3 : strTakeRight p 3 = ".ts")
    (h2 : strTakeRight p 2 = "ts") (hlen : 3 ≤ p.data.length) :
    absoluteJsFilePath cp p = cp ++ "/" ++ (strDropRight p 3 ++ ".js") ∧
    absoluteMapFilePath cp p = cp ++ "/" ++ (strDropRight p 3 ++ ".js.map") ∧
    absoluteDtsFilePath cp p = cp ++ "/" ++ (strDropRight p 3 ++ ".d.ts") := by
  unfold absoluteJsFilePath absoluteMapFilePath absoluteDtsFilePath jsReplaceDotTs jsReplaceAnyTs
  rw [if_pos h3, if_pos ⟨h2, hlen⟩, if_pos h3]
  exact ⟨rfl, rfl, rfl⟩

lemma artifact_paths_distinct (cp p : String) (h3 : strTakeRight p 3 = ".ts")
    (h2 : strTakeRight p 2 = "ts") (hlen : 3 ≤ p.data.length) :
    absoluteJsFilePath cp p ≠ absoluteMapFilePath cp p ∧
    absoluteJsFilePath cp p ≠ absoluteDtsFilePath cp p ∧
    absoluteMapFilePath cp p ≠ absoluteDtsFilePath cp p := by
  obtain ⟨e1, e2, e3⟩ := artifact_paths cp p h3 h2 hlen
  rw [e1, e2, e3]
  refine ⟨String.ne_of_data_length ?_, String.ne_of_data_length ?_, String.ne_of_data_length ?_⟩
  all_goals
    simp only [strLen_append, List.length_cons, List.length_nil]
    omega

/-- C1, counterexample: in the DEGRADED state (firstRun false,
previousRunFailed true) with diff changed = [c.ts], the cycle requests
per-path incremental emission for c.ts before its full build: the final
trace ends with an emitRequest for c.ts followed by the recovery full
build, contradicting the claim that no per-path incremental emission is
requested in a DEGRADED cycle. -/
theorem C1_counterexample :
    stateAfterFailedFirstBuild.firstRun = false ∧
    stateAfterFailedFirstBuild.previousRunFailed = true ∧
    (rebuild "cache" svcOk stateAfterFailedFirstBuild
        { changedPaths := ["c.ts"], removedPaths := [] }).1.trace
      = [BuildEvent.fullBuild, BuildEvent.logDiag diagA,
          BuildEvent.emitRequest "c.ts", BuildEvent.fullBuild] := by
  refine ⟨by decide, by decide, by decide⟩

/-- C1, amended: in the DEGRADED state (firstRun false, previousRunFailed
true) a rebuild with no removals still performs per-path incremental
emission for every changed path first; only when no changed path records
an error does it then perform a full build, and when some path records an
error it sets the failure flag and throws without any full build. -/
theorem C1_degraded_still_emits_incrementally (cp : String) (o : TSService) (s : CompilerState)
    (d : TreeDiff) (hF : s.firstRun = false) (hP : s.previousRunFailed = true)
    (hR : d.removedPaths = []) :
    (∀ p ∈ d.changedPaths, BuildEvent.emitRequest p ∈ (rebuild cp o s d).1.trace) ∧
    ((emitLoop o (markLoop s d.changedPaths) [] d.changedPaths).2 = [] →
      rebuild cp o s d
        = doFullBuild o (emitLoop o (markLoop s d.changedPaths) [] d.changedPaths).1) ∧
    ((emitLoop o (markLoop s d.changedPaths) [] d.changedPaths).2 ≠ [] →
      rebuild cp o s d
        = ({ (emitLoop o (markLoop s d.changedPaths) [] d.changedPaths).1 with
              previousRunFailed := true },
            some (RebuildError.jsError tsErrorsMessage))) := by
  have hok : (removeLoop cp (markLoop s d.changedPaths) d.removedPaths).2 = none := by
    rw [hR, removeLoop_nil]
  have hred : rebuild cp o s d = buildPhase o d.changedPaths (markLoop s d.changedPaths) := by
    rw [rebuild_of_removeLoop_ok cp o s d hok, hR, removeLoop_nil]
  have hF1 : (markLoop s d.changedPaths).firstRun = false := by
    rw [markLoop_firstRun]; exact hF
  have hP1 : (markLoop s d.changedPaths).previousRunFailed = true := by
    rw [markLoop_previousRunFailed]; exact hP
  refine ⟨?_, ?_, ?_⟩
  · intro p hp
    rw [hred]
    by_cases hne : (emitLoop o (markLoop s d.changedPaths) [] d.changedPaths).2 = []
    · rw [buildPhase_recover o _ _ hF1 hne hP1]
      exact mem_trace_doFullBuild _ _ _ (emitRequest_mem_emitLoop o _ _ _ p hp)
    · rw [buildPhase_throw o _ _ hF1 hne]
      exact emitRequest_mem_emitLoop o _ _ _ p hp
  · intro he
    rw [hred, buildPhase_recover o _ _ hF1 he hP1]
  · intro hne
    rw [hred, buildPhase_throw o _ _ hF1 hne]

/-- C1, witness for the amended theorem at a concrete DEGRADED state. -/
theorem C1_witness :
    BuildEvent.emitRequest "c.ts" ∈ (rebuild "cache" svcOk stateAfterFailedFirstBuild
      { changedPaths := ["c.ts"], removedPaths := [] }).1.trace := by
  have h := C1_degraded_still_emits_incrementally "cache" svcOk stateAfterFailedFirstBuild
    { changedPaths := ["c.ts"], removedPaths := [] } (by decide) (by decide) rfl
  exact h.1 "c.ts" (by decide)

/-- C2, counterexample: a DEGRADED cycle whose incremental emissions all
succeed and whose recovery full build reports zero errors (emitSkipped
false, no diagnostics) completes without error yet returns with
previousRunFailed still true, contradicting the claim that every cycle
completing without errors ends with previousRunFailed false. -/
theorem C2_counterexample :
    stateAfterFailedFirstBuild.previousRunFailed = true ∧
    svcOk.programEmit.emitSkipped = false ∧
    svcOk.programEmit.preEmitDiagnostics = [] ∧
    (rebuild "cache" svcOk stateAfterFailedFirstBuild
        { changedPaths := ["a.ts"], removedPaths := [] }).2 = none ∧
    (rebuild "cache" svcOk stateAfterFailedFirstBuild
        { changedPaths := ["a.ts"], removedPaths := [] }).1.previousRunFailed = true := by
  refine ⟨by decide, by decide, by decide, by decide, by decide⟩

/-- C2, amended: in a non-first cycle with no removals in which no changed
path is recorded as failed, previousRunFailed ends false when it was
already false; when it was true, the recovery full build leaves it true
unless that build reports emitSkipped with an empty collected diagnostics
list, which is the only case that clears the flag. -/
theorem C2_failure_flag_clearing (cp : String) (o : TSService) (s : CompilerState) (d : TreeDiff)
    (hF : s.firstRun = false) (hR : d.removedPaths = [])
    (hNoFail : (emitLoop o (markLoop s d.changedPaths) [] d.changedPaths).2 = [])
    (hWf : ∀ dg ∈ o.programEmit.preEmitDiagnostics ++ o.programEmit.emitDiagnostics,
      dg.file.isSome = true) :
    (rebuild cp o s d).1.previousRunFailed =
      (if s.previousRunFailed = false then false
       else if o.programEmit.emitSkipped = false then true
       else if (o.programEmit.preEmitDiagnostics ++ o.programEmit.emitDiagnostics).isEmpty then
         false
       else true) := by
  have hok : (removeLoop cp (markLoop s d.changedPaths) d.removedPaths).2 = none := by
    rw [hR, removeLoop_nil]
  have hred : rebuild cp o s d = buildPhase o d.changedPaths (markLoop s d.changedPaths) := by
    rw [rebuild_of_removeLoop_ok cp o s d hok, hR, removeLoop_nil]
  have hF1 : (markLoop s d.changedPaths).firstRun = false := by
    rw [markLoop_firstRun]; exact hF
  cases hprev : s.previousRunFailed with
  | false =>
    have hP1 : (markLoop s d.changedPaths).previousRunFailed = false := by
      rw [markLoop_previousRunFailed]; exact hprev
    rw [hred, buildPhase_steady o _ _ hF1 hNoFail hP1, if_pos rfl]
    rw [emitLoop_previousRunFailed]
    exact hP1
  | true =>
    have hP1 : (markLoop s d.changedPaths).previousRunFailed = true := by
      rw [markLoop_previousRunFailed]; exact hprev
    rw [hred, buildPhase_recover o _ _ hF1 hNoFail hP1]
    rw [doFullBuild_previousRunFailed o _ hWf]
    rw [if_neg (show ¬ (true = false) by simp)]
    cases hsk : o.programEmit.emitSkipped with
    | false =>
      rw [if_pos rfl, if_pos rfl]
      rw [emitLoop_previousRunFailed]
      exact hP1
    | true =>
      rw [if_neg (show ¬ (true = false) by simp), if_neg (show ¬ (true = false) by simp)]

/-- C2, witness for the amended theorem: a DEGRADED cycle with a normally
succeeding recovery full build keeps previousRunFailed true. -/
theorem C2_witness :
    (rebuild "cache" svcOk stateAfterFailedFirstBuild
        { changedPaths := ["a.ts"], removedPaths := [] }).1.previousRunFailed = true := by
  have h := C2_failure_flag_clearing "cache" svcOk stateAfterFailedFirstBuild
    { changedPaths := ["a.ts"], removedPaths := [] } (by decide) rfl (by decide)
    (fun dg hdg => absurd hdg (List.not_mem_nil dg))
  rw [h]
  decide

/-- C3, counterexample: a changed path in a non-first cycle whose emission
is skipped but for which the service reports no diagnostics at all is not
recorded as failed: the cycle completes without error and with the failure
flag still false, contradicting the claim that every skipped path is
recorded as failed and makes the cycle propagate an error. -/
theorem C3_counterexample :
    (svcSkipNoDiag.getEmitOutput "a.ts").emitSkipped = true ∧
    logErrorDiags svcSkipNoDiag "a.ts" = [] ∧
    (rebuild "cache" svcSkipNoDiag stateAfterGoodFirstBuild
        { changedPaths := ["a.ts"], removedPaths := [] }).2 = none ∧
    (rebuild "cache" svcSkipNoDiag stateAfterGoodFirstBuild
        { changedPaths := ["a.ts"], removedPaths := [] }).1.previousRunFailed = false := by
  refine ⟨by decide, by decide, by decide, by decide⟩

/-- C3, amended: for a changed path of a non-first cycle (no removals)
whose emission is skipped, the compiler-options, syntactic and semantic
diagnostics for that path are logged; the path is recorded as failed
exactly when that collected list is non-empty, and in that case the cycle
sets the failure flag and propagates the error. -/
theorem C3_skipped_path_diagnostics (cp : String) (o : TSService) (s : CompilerState)
    (d : TreeDiff) (p : String) (hF : s.firstRun = false) (hR : d.removedPaths = [])
    (hp : p ∈ d.changedPaths) (hsk : (o.getEmitOutput p).emitSkipped = true) :
    (∀ dg ∈ logErrorDiags o p, BuildEvent.logDiag dg ∈ (rebuild cp o s d).1.trace) ∧
    (logErrorDiags o p ≠ [] →
      p ∈ (emitLoop o (markLoop s d.changedPaths) [] d.changedPaths).2 ∧
      (rebuild cp o s d).2 = some (RebuildError.jsError tsErrorsMessage) ∧
      (rebuild cp o s d).1.previousRunFailed = true) := by
  have hok : (removeLoop cp (markLoop s d.changedPaths) d.removedPaths).2 = none := by
    rw [hR, removeLoop_nil]
  have hred : rebuild cp o s d = buildPhase o d.changedPaths (markLoop s d.changedPaths) := by
    rw [rebuild_of_removeLoop_ok cp o s d hok, hR, removeLoop_nil]
  have hF1 : (markLoop s d.changedPaths).firstRun = false := by
    rw [markLoop_firstRun]; exact hF
  constructor
  · intro dg hdg
    rw [hred]
    by_cases hne : (emitLoop o (markLoop s d.changedPaths) [] d.changedPaths).2 = []
    · cases hprev : (markLoop s d.changedPaths).previousRunFailed with
      | true =>
        rw [buildPhase_recover o _ _ hF1 hne hprev]
        exact mem_trace_doFullBuild _ _ _ (logDiag_mem_emitLoop o _ _ _ p hp hsk dg hdg)
      | false =>
        rw [buildPhase_steady o _ _ hF1 hne hprev]
        exact logDiag_mem_emitLoop o _ _ _ p hp hsk dg hdg
    · rw [buildPhase_throw o _ _ hF1 hne]
      exact logDiag_mem_emitLoop o _ _ _ p hp hsk dg hdg
  · intro hd
    have hmem := failed_mem_emitLoop o d.changedPaths (markLoop s d.changedPaths) [] p hp hsk hd
    have hne : (emitLoop o (markLoop s d.changedPaths) [] d.changedPaths).2 ≠ [] :=
      List.ne_nil_of_mem hmem
    rw [hred, buildPhase_throw o _ _ hF1 hne]
    exact ⟨hmem, rfl, rfl⟩

/-- C3, witness for the amended theorem: a skipped path with one semantic
diagnostic is recorded as failed and fails the cycle. -/
theorem C3_witness :
    (rebuild "cache" svcSkipWithDiag stateAfterGoodFirstBuild
        { changedPaths := ["a.ts"], removedPaths := [] }).2
      = some (RebuildError.jsError tsErrorsMessage) ∧
    (rebuild "cache" svcSkipWithDiag stateAfterGoodFirstBuild
        { changedPaths := ["a.ts"], removedPaths := [] }).1.previousRunFailed = true := by
  have h := C3_skipped_path_diagnostics "cache" svcSkipWithDiag stateAfterGoodFirstBuild
    { changedPaths := ["a.ts"], removedPaths := [] } "a.ts" (by decide) rfl (by decide) (by decide)
  have h2 := h.2 (by decide)
  exact ⟨h2.2.1, h2.2.2⟩

/-- C4 (confirmed): in a non-first cycle whose removal phase completes,
if some changed path fails to emit (emission skipped with at least one
collected diagnostic), then rebuild throws the error whose message
references that errors were found and sets previousRunFailed; the cache
filesystem differs from its pre-emission state only at artifact names
written for paths whose emission succeeded (so nothing is written for a
failed path), and every artifact written for a succeeding path is still
present when the cycle ends (no rollback). -/
theorem C4_incremental_failure (cp : String) (o : TSService) (s : CompilerState) (d : TreeDiff)
    (hF : s.firstRun = false)
    (hRem : (removeLoop cp (markLoop s d.changedPaths) d.removedPaths).2 = none)
    (hFail : ∃ p ∈ d.changedPaths,
      (o.getEmitOutput p).emitSkipped = true ∧ logErrorDiags o p ≠ []) :
    (rebuild cp o s d).2 = some (RebuildError.jsError tsErrorsMessage) ∧
    mentionsFoundErrors tsErrorsMessage = true ∧
    (rebuild cp o s d).1.previousRunFailed = true ∧
    (∀ q, (rebuild cp o s d).1.cacheFs q
        ≠ (removeLoop cp (markLoop s d.changedPaths) d.removedPaths).1.cacheFs q →
      ∃ p ∈ d.changedPaths, (o.getEmitOutput p).emitSkipped = false ∧
        ∃ f ∈ (o.getEmitOutput p).outputFiles, f.name = q) ∧
    (∀ p ∈ d.changedPaths, (o.getEmitOutput p).emitSkipped = false →
      ∀ f ∈ (o.getEmitOutput p).outputFiles,
        ((rebuild cp o s d).1.cacheFs f.name).isSome = true) := by
  have hred := rebuild_of_removeLoop_ok cp o s d hRem
  have hF2 : (removeLoop cp (markLoop s d.changedPaths) d.removedPaths).1.firstRun = false := by
    rw [removeLoop_firstRun, markLoop_firstRun]; exact hF
  obtain ⟨p0, hp0, hsk0, hd0⟩ := hFail
  have hmem := failed_mem_emitLoop o d.changedPaths
    (removeLoop cp (markLoop s d.changedPaths) d.removedPaths).1 [] p0 hp0 hsk0 hd0
  have hne := List.ne_nil_of_mem hmem
  rw [hred, buildPhase_throw o _ _ hF2 hne]
  refine ⟨rfl, by decide, rfl, ?_, ?_⟩
  · intro q hq
    rcases emitLoop_cacheFs_cases o d.changedPaths
      (removeLoop cp (markLoop s d.changedPaths) d.removedPaths).1 [] q with h | h
    · exact absurd h hq
    · exact h
  · intro p hp hskp f hf
    exact emitLoop_success_written o d.changedPaths _ [] p hp hskp f hf

/-- C4, witness: b.ts fails to emit while a.ts succeeds; the cycle throws
with the failure flag set and the artifact written for a.ts is present. -/
theorem C4_witness :
    (rebuild "cache" svcEmitFailB stateAfterGoodFirstBuild
        { changedPaths := ["a.ts", "b.ts"], removedPaths := [] }).2
      = some (RebuildError.jsError tsErrorsMessage) ∧
    (rebuild "cache" svcEmitFailB stateAfterGoodFirstBuild
        { changedPaths := ["a.ts", "b.ts"], removedPaths := [] }).1.previousRunFailed = true ∧
    ((rebuild "cache" svcEmitFailB stateAfterGoodFirstBuild
        { changedPaths := ["a.ts", "b.ts"], removedPaths := [] }).1.cacheFs
          "cache/a.ts.out").isSome = true := by
  have h := C4_incremental_failure "cache" svcEmitFailB stateAfterGoodFirstBuild
    { changedPaths := ["a.ts", "b.ts"], removedPaths := [] } (by decide) rfl
    ⟨"b.ts", by decide, by decide, by decide⟩
  exact ⟨h.1, h.2.2.1,
    h.2.2.2.2 "a.ts" (by decide) (by decide)
      { name := "cache/a.ts.out", text := "generated" } (by decide)⟩

/-- C5 (confirmed): a path first reported changed (no record, not yet in
the root set) gets a FileRecord with version 0 and is appended exactly
once to the root set; each further changed-report strictly increments the
version, so after n changed-reports with no intervening removal the
record holds version n-1 and getScriptVersion reports the string n-1,
and the path still occurs exactly once in the root set. -/
theorem C5_version_counting (s : CompilerState) (p : String) (n : Nat)
    (h0 : s.fileRegistry p = RegEntry.absent) (hnr : p ∉ s.rootFilePaths) (hn : 1 ≤ n) :
    (markChanged s p).fileRegistry p = RegEntry.live 0 ∧
    (markChanged s p).rootFilePaths = s.rootFilePaths ++ [p] ∧
    (markChanged s p).rootFilePaths.count p = 1 ∧
    (markChangedN s p n).fileRegistry p = RegEntry.live (n - 1) ∧
    getScriptVersion (markChangedN s p n).fileRegistry p = some (toString (n - 1)) ∧
    (markChangedN s p n).rootFilePaths.count p = 1 := by
  have hcount : (s.rootFilePaths ++ [p]).count p = 1 := by
    rw [List.count_append, List.count_eq_zero.mpr hnr]
    simp
  obtain ⟨m, rfl⟩ : ∃ m, n = m + 1 := ⟨n - 1, by omega⟩
  obtain ⟨h4, h5⟩ := markChangedN_spec s p h0 m
  have h1 : (markChanged s p).fileRegistry p = RegEntry.live 0 := (markChangedN_spec s p h0 0).1
  have h2 : (markChanged s p).rootFilePaths = s.rootFilePaths ++ [p] :=
    (markChangedN_spec s p h0 0).2
  refine ⟨h1, h2, ?_, ?_, ?_, ?_⟩
  · rw [h2]; exact hcount
  · rw [Nat.add_sub_cancel]; exact h4
  · rw [Nat.add_sub_cancel]
    unfold getScriptVersion
    rw [h4]
  · rw [h5]; exact hcount

/-- C5, witness: three changed-reports of a fresh path leave version 2
and a single root-set occurrence. -/
theorem C5_witness :
    (markChanged (initialState []) "a.ts").fileRegistry "a.ts" = RegEntry.live 0 ∧
    getScriptVersion (markChangedN (initialState []) "a.ts" 3).fileRegistry "a.ts" = some "2" ∧
    (markChangedN (initialState []) "a.ts" 3).rootFilePaths.count "a.ts" = 1 := by
  have h := C5_version_counting (initialState []) "a.ts" 3 rfl (by decide) (by decide)
  refine ⟨h.1, ?_, h.2.2.2.2.2⟩
  rw [h.2.2.2.2.1]
  decide

/-- C6, counterexample: an orchestrator constructed with a non-empty
rootFilePaths option starts with a root-set entry that has no FileRecord;
after a cycle with an empty diff (which trivially satisfies the removal
precondition) the path a.ts is still in the root set with no live
record, contradicting the claim that the lockstep invariant holds at the
end of every cycle. -/
theorem C6_counterexample :
    (rebuild "cache" svcOk (initialState ["a.ts"])
        { changedPaths := [], removedPaths := [] }).2 = none ∧
    "a.ts" ∈ (rebuild "cache" svcOk (initialState ["a.ts"])
        { changedPaths := [], removedPaths := [] }).1.rootFilePaths ∧
    isLiveEntry ((rebuild "cache" svcOk (initialState ["a.ts"])
        { changedPaths := [], removedPaths := [] }).1.fileRegistry "a.ts") = false := by
  refine ⟨by decide, by decide, by decide⟩

/-- C6, amended: provided the lockstep invariant holds when the cycle
starts (in particular when the orchestrator was constructed with an empty
rootFilePaths option) and each removed path holds a live record at the
moment its removal is processed, the invariant holds after each changed
path is applied, after each removal is applied, and at the end of the
cycle, whether or not the cycle throws. -/
theorem C6_rootset_registry_lockstep (cp : String) (o : TSService) (s : CompilerState)
    (d : TreeDiff) (hInv : RegInv s)
    (hCons : removalsConsistent cp (markLoop s d.changedPaths) d.removedPaths) :
    RegInv (rebuild cp o s d).1 ∧
    (∀ k, RegInv (markLoop s (d.changedPaths.take k))) ∧
    (∀ k, RegInv (removeLoop cp (markLoop s d.changedPaths) (d.removedPaths.take k)).1) := by
  have h1 : RegInv (markLoop s d.changedPaths) := RegInv_markLoop _ s hInv
  refine ⟨?_, fun k => RegInv_markLoop _ s hInv,
    fun k => RegInv_removeLoop cp _ _ h1 (removalsConsistent_take cp _ _ k hCons)⟩
  cases he : (removeLoop cp (markLoop s d.changedPaths) d.removedPaths).2 with
  | some e =>
    rw [rebuild_of_removeLoop_err cp o s d e he]
    exact RegInv_removeLoop cp _ _ h1 hCons
  | none =>
    rw [rebuild_of_removeLoop_ok cp o s d he]
    exact RegInv_buildPhase o _ _ (RegInv_removeLoop cp _ _ h1 hCons)

/-- C6, witness: from a state tracking a.ts whose invariant holds, a cycle
changing b.ts and removing a.ts preserves the invariant. -/
theorem C6_witness :
    RegInv stateTrackingA ∧
    RegInv (rebuild "cache" svcOk stateTrackingA
        { changedPaths := ["b.ts"], removedPaths := ["a.ts"] }).1 := by
  have hInv : RegInv stateTrackingA := by
    constructor
    · decide
    · intro q
      by_cases hq : q = "a.ts"
      · subst hq
        simp [stateTrackingA, setFn, isLiveEntry]
      · simp [stateTrackingA, setFn, hq, isLiveEntry]
  have hCons : removalsConsistent "cache" (markLoop stateTrackingA ["b.ts"]) ["a.ts"] :=
    ⟨by decide, trivial⟩
  have h := C6_rootset_registry_lockstep "cache" svcOk stateTrackingA
    { changedPaths := ["b.ts"], removedPaths := ["a.ts"] } hInv hCons
  exact ⟨hInv, h.1⟩

lemma unlinkSync_some (fsys : FileSys) (p : String) (v : String) (h : fsys p = some v) :
    unlinkSync fsys p = (setFn fsys p none, none) := by
  unfold unlinkSync
  rw [h]

lemma unlinkSync_none (fsys : FileSys) (p : String) (h : fsys p = none) :
    unlinkSync fsys p
      = (fsys, some (RebuildError.fsError ("ENOENT: no such file " ++ p))) := by
  unfold unlinkSync
  rw [h]

/-- C7 (confirmed): stale-output removal checks the generated artifact
first; when it is absent nothing is deleted and no error is raised; when
all three artifacts are present all three are deleted and nothing else
changes; when the generated artifact is present but the source-map or
declaration artifact is missing at deletion time, the removal throws. -/
theorem C7_stale_output_removal (cp p : String) (fsys : FileSys)
    (h3 : strTakeRight p 3 = ".ts") (h2 : strTakeRight p 2 = "ts") (hlen : 3 ≤ p.data.length) :
    (fsys (absoluteJsFilePath cp p) = none → removeOutputFor cp p fsys = (fsys, none)) ∧
    ((fsys (absoluteJsFilePath cp p)).isSome = true →
      (fsys (absoluteMapFilePath cp p)).isSome = true →
      (fsys (absoluteDtsFilePath cp p)).isSome = true →
      (removeOutputFor cp p fsys).2 = none ∧
      ∀ q, (removeOutputFor cp p fsys).1 q =
        (if q = absoluteJsFilePath cp p ∨ q = absoluteMapFilePath cp p ∨
            q = absoluteDtsFilePath cp p then none else fsys q)) ∧
    ((fsys (absoluteJsFilePath cp p)).isSome = true →
      fsys (absoluteMapFilePath cp p) = none →
      ∃ e, (removeOutputFor cp p fsys).2 = some e) ∧
    ((fsys (absoluteJsFilePath cp p)).isSome = true →
      (fsys (absoluteMapFilePath cp p)).isSome = true →
      fsys (absoluteDtsFilePath cp p) = none →
      ∃ e, (removeOutputFor cp p fsys).2 = some e) := by
  obtain ⟨hd1, hd2, hd3⟩ := artifact_paths_distinct cp p h3 h2 hlen
  refine ⟨?_, ?_, ?_, ?_⟩
  · intro h
    unfold removeOutputFor
    dsimp only
    rw [h]
    rfl
  · intro hjs hmap hdts
    obtain ⟨vj, hvj⟩ := Option.isSome_iff_exists.mp hjs
    obtain ⟨vm, hvm⟩ := Option.isSome_iff_exists.mp hmap
    obtain ⟨vd, hvd⟩ := Option.isSome_iff_exists.mp hdts
    have hm1 : setFn fsys (absoluteJsFilePath cp p) none (absoluteMapFilePath cp p) = some vm := by
      rw [setFn_other _ _ _ _ hd1.symm]
      exact hvm
    have hm2 : setFn (setFn fsys (absoluteJsFilePath cp p) none) (absoluteMapFilePath cp p) none
        (absoluteDtsFilePath cp p) = some vd := by
      rw [setFn_other _ _ _ _ hd3.symm, setFn_other _ _ _ _ hd2.symm]
      exact hvd
    have hstep : removeOutputFor cp p fsys
        = (setFn (setFn (setFn fsys (absoluteJsFilePath cp p) none)
            (absoluteMapFilePath cp p) none) (absoluteDtsFilePath cp p) none, none) := by
      unfold removeOutputFor
      dsimp only
      rw [if_pos hjs, unlinkSync_some fsys _ vj hvj]
      dsimp only
      rw [unlinkSync_some _ _ vm hm1]
      dsimp only
      rw [unlinkSync_some _ _ vd hm2]
    rw [hstep]
    refine ⟨rfl, ?_⟩
    intro q
    dsimp only
    by_cases hq1 : q = absoluteDtsFilePath cp p
    · subst hq1
      rw [setFn_same, if_pos (Or.inr (Or.inr rfl))]
    · rw [setFn_other _ _ _ _ hq1]
      by_cases hq2 : q = absoluteMapFilePath cp p
      · subst hq2
        rw [setFn_same, if_pos (Or.inr (Or.inl rfl))]
      · rw [setFn_other _ _ _ _ hq2]
        by_cases hq3 : q = absoluteJsFilePath cp p
        · subst hq3
          rw [setFn_same, if_pos (Or.inl rfl)]
        · rw [setFn_other _ _ _ _ hq3,
            if_neg (fun hc => hc.elim hq3 (fun hc2 => hc2.elim hq2 hq1))]
  · intro hjs hmapn
    obtain ⟨vj, hvj⟩ := Option.isSome_iff_exists.mp hjs
    have hm1 : setFn fsys (absoluteJsFilePath cp p) none (absoluteMapFilePath cp p) = none := by
      rw [setFn_other _ _ _ _ hd1.symm]
      exact hmapn
    unfold removeOutputFor
    dsimp only
    rw [if_pos hjs, unlinkSync_some fsys _ vj hvj]
    dsimp only
    rw [unlinkSync_none _ _ hm1]
    exact ⟨_, rfl⟩
  · intro hjs hmap hdtsn
    obtain ⟨vj, hvj⟩ := Option.isSome_iff_exists.mp hjs
    obtain ⟨vm, hvm⟩ := Option.isSome_iff_exists.mp hmap
    have hm1 : setFn fsys (absoluteJsFilePath cp p) none (absoluteMapFilePath cp p) = some vm := by
      rw [setFn_other _ _ _ _ hd1.symm]
      exact hvm
    have hm2 : setFn (setFn fsys (absoluteJsFilePath cp p) none) (absoluteMapFilePath cp p) none
        (absoluteDtsFilePath cp p) = none := by
      rw [setFn_other _ _ _ _ hd3.symm, setFn_other _ _ _ _ hd2.symm]
      exact hdtsn
    unfold removeOutputFor
    dsimp only
    rw [if_pos hjs, unlinkSync_some fsys _ vj hvj]
    dsimp only
    rw [unlinkSync_some _ _ vm hm1]
    dsimp only
    rw [unlinkSync_none _ _ hm2]
    exact ⟨_, rfl⟩

/-- C7, witness: with all three artifacts of a.ts present the removal
succeeds and deletes the generated artifact; with the source map missing
the removal throws. -/
theorem C7_witness :
    (removeOutputFor "cache" "a.ts" fsysThreeA).2 = none ∧
    (removeOutputFor "cache" "a.ts" fsysThreeA).1 "cache/a.js" = none ∧
    (∃ e, (removeOutputFor "cache" "a.ts" fsysNoMapA).2 = some e) := by
  have h := C7_stale_output_removal "cache" "a.ts" fsysThreeA (by decide) (by decide) (by decide)
  have hall := h.2.1 (by decide) (by decide) (by decide)
  have h2 := C7_stale_output_removal "cache" "a.ts" fsysNoMapA (by decide) (by decide) (by decide)
  refine ⟨hall.1, ?_, h2.2.2.1 (by decide) (by decide)⟩
  rw [hall.2 "cache/a.js"]
  decide

/-- C8, counterexample: after a successful first cycle tracking a.ts, a
removal reported for the never-tracked path ghost.ts completes without
any error and silently mutates the state: the root set loses its last
element a.ts (splice with indexOf -1) and ghost.ts is tombstoned in the
registry, contradicting the claim that an untracked removal is a fatal
error and does not silently mutate the root set or registry. -/
theorem C8_counterexample :
    stateAfterGoodFirstBuild.fileRegistry "ghost.ts" = RegEntry.absent ∧
    stateAfterGoodFirstBuild.rootFilePaths = ["a.ts"] ∧
    (rebuild "cache" svcOk stateAfterGoodFirstBuild
        { changedPaths := [], removedPaths := ["ghost.ts"] }).2 = none ∧
    (rebuild "cache" svcOk stateAfterGoodFirstBuild
        { changedPaths := [], removedPaths := ["ghost.ts"] }).1.rootFilePaths = [] ∧
    (rebuild "cache" svcOk stateAfterGoodFirstBuild
        { changedPaths := [], removedPaths := ["ghost.ts"] }).1.fileRegistry "ghost.ts"
      = RegEntry.tombstone ∧
    (rebuild "cache" svcOk stateAfterGoodFirstBuild
        { changedPaths := [], removedPaths := ["ghost.ts"] }).1.fileRegistry "a.ts"
      = RegEntry.live 0 := by
  refine ⟨by decide, by decide, by decide, by decide, by decide, by decide⟩

/-- C8, amended: a removal reported for a path that is not in the root
set is not detected: when no generated artifact exists for it, the
removal step raises no error, silently drops the LAST element of the
root set (the result of splicing at indexOf -1), tombstones the
untracked path in the registry, and leaves every other registry entry
and the cache filesystem unchanged. -/
theorem C8_untracked_removal_silent (cp : String) (s : CompilerState) (p : String)
    (hnr : p ∉ s.rootFilePaths)
    (hfs : s.cacheFs (absoluteJsFilePath cp p) = none) :
    (processRemoved cp s p).2 = none ∧
    (processRemoved cp s p).1.rootFilePaths = s.rootFilePaths.dropLast ∧
    (processRemoved cp s p).1.fileRegistry p = RegEntry.tombstone ∧
    (∀ q, q ≠ p → (processRemoved cp s p).1.fileRegistry q = s.fileRegistry q) ∧
    (∀ q, (processRemoved cp s p).1.cacheFs q = s.cacheFs q) := by
  have hro : removeOutputFor cp p s.cacheFs = (s.cacheFs, none) := by
    unfold removeOutputFor
    dsimp only
    rw [hfs]
    rfl
  unfold processRemoved
  dsimp only
  rw [hro]
  refine ⟨rfl, ?_, setFn_same _ _ _, fun q hq => setFn_other _ _ _ _ hq, fun q => rfl⟩
  dsimp only
  rw [jsSplice_of_not_mem p _ hnr]

/-- C8, witness for the amended theorem at a concrete tracked state. -/
theorem C8_witness :
    (processRemoved "cache" stateTrackingA "ghost.ts").2 = none ∧
    (processRemoved "cache" stateTrackingA "ghost.ts").1.rootFilePaths = [] ∧
    (processRemoved "cache" stateTrackingA "ghost.ts").1.fileRegistry "ghost.ts"
      = RegEntry.tombstone := by
  have h := C8_untracked_removal_silent "cache" stateTrackingA "ghost.ts" (by decide) (by decide)
  refine ⟨h.1, ?_, h.2.2.1⟩
  rw [h.2.1]
  rfl

/-- C9 (confirmed): starting from the constructor state (whose cache
directory is empty, so the removal loop of a first cycle cannot throw),
firstRun is false after the first rebuild call whatever its oracle and
diff, remains false through any further sequence of calls (including
failing ones), and the INIT full-build branch is taken at most once over
any sequence of calls. -/
theorem C9_first_run_once (cp : String) (roots : List String) (o : TSService) (d : TreeDiff)
    (calls allCalls : List (TSService × TreeDiff)) :
    (rebuild cp o (initialState roots) d).1.firstRun = false ∧
    (runCalls cp (rebuild cp o (initialState roots) d).1 calls).firstRun = false ∧
    countInitHits cp (initialState roots) allCalls ≤ 1 := by
  refine ⟨rebuild_initial_firstRun cp roots o d, ?_, countInitHits_le_one cp allCalls _⟩
  exact runCalls_firstRun_of_false cp calls _ (rebuild_initial_firstRun cp roots o d)

/-- C10 (confirmed): a path whose registry entry is a tombstone is
treated by the changed-path step exactly as first-seen: it gets a fresh
FileRecord with version 0 (not a continuation of the old counter) and is
appended to the end of the root set again, and a rebuild whose diff
changes exactly that path ends with the same registry entry and root
set. -/
theorem C10_tombstone_fresh_record (cp : String) (o : TSService) (s : CompilerState) (p : String)
    (h : s.fileRegistry p = RegEntry.tombstone) :
    (markChanged s p).fileRegistry p = RegEntry.live 0 ∧
    (markChanged s p).rootFilePaths = s.rootFilePaths ++ [p] ∧
    (rebuild cp o s { changedPaths := [p], removedPaths := [] }).1.fileRegistry p
      = RegEntry.live 0 ∧
    (rebuild cp o s { changedPaths := [p], removedPaths := [] }).1.rootFilePaths
      = s.rootFilePaths ++ [p] := by
  have hl : isLiveEntry (s.fileRegistry p) = false := by rw [h]; rfl
  have hmc := markChanged_of_not_live s p hl
  have hred : rebuild cp o s { changedPaths := [p], removedPaths := [] }
      = buildPhase o [p] (markChanged s p) := by
    rw [rebuild_of_removeLoop_ok cp o s { changedPaths := [p], removedPaths := [] } rfl]
    rfl
  refine ⟨?_, ?_, ?_, ?_⟩
  · rw [hmc]
    exact setFn_same _ _ _
  · rw [hmc]
  · rw [hred, buildPhase_fileRegistry, hmc]
    exact setFn_same _ _ _
  · rw [hred, buildPhase_rootFilePaths, hmc]

/-- C10, witness for a concrete tombstoned path. -/
theorem C10_witness :
    (markChanged stateTombA "a.ts").fileRegistry "a.ts" = RegEntry.live 0 ∧
    (rebuild "cache" svcOk stateTombA
        { changedPaths := ["a.ts"], removedPaths := [] }).1.rootFilePaths = ["a.ts"] := by
  have h := C10_tombstone_fresh_record "cache" svcOk stateTombA "a.ts" (by decide)
  refine ⟨h.1, ?_⟩
  rw [h.2.2.2]
  rfl

end BroccoliTS
